import Mathlib

/-!
Verification development for the bulk student-data ingestion pipeline of a
multi-tenant school-management backend.

The Python source is shallowly embedded:
- pure helpers (string normalization, validators, hashing) become Lean functions;
- Django model `clean`/`save` methods become functions returning `Except` values
  (`ValidationError` is modelled by the `error` constructor);
- JSON dicts become association lists `List (String × JVal)`;
- machine-level values (SHA-256 words) are `Nat` with explicit reduction mod 2^32.

The commit transaction of the batch coordinator is not part of the model files;
it is modelled from the specification where indicated.
-/

deriving instance DecidableEq for Except

set_option maxRecDepth 4000000

namespace Compose

/-! ## Python-style string primitives (`str.strip`, `str.lower`) -/

/-- Whitespace characters stripped by Python `str.strip()` (ASCII subset). -/
def isPyWs (c : Char) : Bool :=
  c == ' ' || c == '\t' || c == '\n' || c == '\r' || c == '\x0b' || c == '\x0c'

/-- Left strip on character lists (model of the leading part of `str.strip()`). -/
def lstripL (l : List Char) : List Char := l.dropWhile isPyWs

/-- Right strip on character lists. -/
def rstripL (l : List Char) : List Char := (l.reverse.dropWhile isPyWs).reverse

/-- Model of Python `str.strip()`. -/
def pyStripL (l : List Char) : List Char := rstripL (lstripL l)

/-- Model of Python `str.strip()` on `String`. -/
def pyStrip (s : String) : String := String.mk (pyStripL s.data)

/-- ASCII model of Python `str.lower()` on one character. -/
def pyLowerChar (c : Char) : Char :=
  if 65 ≤ c.toNat ∧ c.toNat ≤ 90 then Char.ofNat (c.toNat + 32) else c

/-- Model of Python `str.lower()` on character lists. -/
def pyLowerL (l : List Char) : List Char := l.map pyLowerChar

/-- Model of Python `str.lower()` on `String`. -/
def pyLower (s : String) : String := String.mk (pyLowerL s.data)

/-- `hasPfxL pfx l` holds when `pfx` is an initial segment of `l`
(model of Python `str.startswith`). -/
def hasPfxL : List Char → List Char → Bool
  | [], _ => true
  | _ :: _, [] => false
  | p :: ps, c :: cs => p == c && hasPfxL ps cs

/-- Model of Python `str.startswith` on `String`. -/
def strHasPfx (s pfx : String) : Bool := hasPfxL pfx.data s.data

/-! ## `core/models/validators.py` -/

/-- Digit value of a decimal digit character. -/
def digitVal (c : Char) : Nat := c.toNat - 48

/-- Model of `E164_REGEX = ^\+?[1-9]\d\x7b7,14\x7d$` applied to the part after the
optional leading plus sign: first char in `[1-9]`, the rest decimal digits,
total digit count between 8 and 15. -/
def e164Core : List Char → Bool
  | [] => false
  | c :: cs =>
    c.isDigit && !(c == '0') && cs.all Char.isDigit
      && decide (7 ≤ cs.length) && decide (cs.length ≤ 14)

/-- Without `re.MULTILINE`, a Python `$` anchor matches at the end of the
string and also just before a newline that is the last character. Since `\d`
cannot match a newline, `E164_REGEX` accepts a string with one trailing
newline exactly when it accepts the string without it: the matched part is
everything before that final newline. -/
def dropTrailingNl (l : List Char) : List Char :=
  match l.reverse with
  | c :: rest => if c = '\n' then rest.reverse else l
  | [] => l

/-- The regex body after `^`: optional leading plus then `e164Core`
(`[1-9]` cannot match `+`, so the empty optional branch applies exactly when
the first character is not a plus sign). -/
def e164CoreOpt (l : List Char) : Bool :=
  match l with
  | c :: rest => if c = '+' then e164Core rest else e164Core (c :: rest)
  | [] => e164Core []

/-- Model of `E164_REGEX.match(value)` as a Boolean: one trailing newline is
tolerated by the `$` anchor, then the body must consume the rest. -/
def e164Match (s : String) : Bool := e164CoreOpt (dropTrailingNl s.data)

/-- `validate_phone_e164` from `core/models/validators.py`: raises exactly when
the value is non-empty and fails the E.164 regex. -/
def validate_phone_e164 (value : String) : Except String Unit :=
  if value ≠ "" ∧ e164Match value = false then
    Except.error ("Numero invalide (format E.164 requis).")
  else Except.ok ()

/-- `CENTRAL_AFRICA_E164_PREFIXES` from `core/models/validators.py`
(set literal, written here in source order). -/
def CENTRAL_AFRICA_E164_PREFIXES : List String :=
  ["+237", "+241", "+235", "+236", "+242", "+240"]

/-- `validate_central_africa_phone` from `core/models/validators.py`:
empty values pass; otherwise the value must pass `validate_phone_e164` and,
after prefixing a plus sign when absent, start with one of the six CEMAC
prefixes. -/
def validate_central_africa_phone (value : String) : Except String Unit :=
  if value = "" then Except.ok ()
  else
    match validate_phone_e164 value with
    | Except.error m => Except.error m
    | Except.ok _ =>
      let normalized := if strHasPfx value ("+") then value else "+" ++ value
      if CENTRAL_AFRICA_E164_PREFIXES.any (fun p => strHasPfx normalized p) then
        Except.ok ()
      else
        Except.error ("Numero hors zone CEMAC.")

/-- Model of `SCHOOL_YEAR_RE = ^(20\d\x7b2\x7d)-(20\d\x7b2\x7d)$` returning the two
captured years on a match. -/
def syMatch (s : String) : Option (Nat × Nat) :=
  match s.data with
  | '2' :: '0' :: a :: b :: '-' :: '2' :: '0' :: c :: d :: [] =>
    if a.isDigit && b.isDigit && c.isDigit && d.isDigit then
      some (2000 + 10 * digitVal a + digitVal b, 2000 + 10 * digitVal c + digitVal d)
    else none
  | _ => none

/-- `validate_school_year` from `core/models/validators.py`: requires a
non-empty value, a match of `SCHOOL_YEAR_RE` on the stripped value, a second
year equal to the first plus one, and a first year in 2000..2100. -/
def validate_school_year (value : String) : Except String Unit :=
  if value = "" then Except.error ("Annee scolaire requise (ex: 2024-2025).")
  else
    match syMatch (pyStrip value) with
    | none => Except.error ("Format invalide. Utiliser YYYY-YYYY (ex: 2024-2025).")
    | some (a, b) =>
      if (b : Int) - (a : Int) ≠ 1 then
        Except.error ("Annee scolaire incoherente: la deuxieme annee doit etre la premiere + 1.")
      else if ¬ (2000 ≤ a ∧ a ≤ 2100) then
        Except.error ("Annee scolaire hors plage autorisee (2000-2100).")
      else Except.ok ()

/-! ## SHA-256 (model of `hashlib.sha256`, 32-bit words as `Nat` mod 2^32) -/

/-- Reduce a natural number to a 32-bit word. -/
def w32 (n : Nat) : Nat := n % 4294967296

/-- 32-bit right rotation. -/
def rotr (n x : Nat) : Nat := w32 ((x >>> n) ||| (x <<< (32 - n)))

/-- SHA-256 `Ch` function (bitwise choice). -/
def shaCh (e f g : Nat) : Nat := (e &&& f) ^^^ ((e ^^^ 4294967295) &&& g)

/-- SHA-256 `Maj` function (bitwise majority). -/
def shaMaj (a b c : Nat) : Nat := (a &&& b) ^^^ (a &&& c) ^^^ (b &&& c)

/-- SHA-256 big sigma 0. -/
def bigSigma0 (x : Nat) : Nat := rotr 2 x ^^^ rotr 13 x ^^^ rotr 22 x

/-- SHA-256 big sigma 1. -/
def bigSigma1 (x : Nat) : Nat := rotr 6 x ^^^ rotr 11 x ^^^ rotr 25 x

/-- SHA-256 small sigma 0. -/
def smallSigma0 (x : Nat) : Nat := rotr 7 x ^^^ rotr 18 x ^^^ (x >>> 3)

/-- SHA-256 small sigma 1. -/
def smallSigma1 (x : Nat) : Nat := rotr 17 x ^^^ rotr 19 x ^^^ (x >>> 10)

/-- SHA-256 round constants. -/
def shaK : List Nat :=
  [1116352408, 1899447441, 3049323471, 3921009573, 961987163, 1508970993,
   2453635748, 2870763221, 3624381080, 310598401, 607225278, 1426881987,
   1925078388, 2162078206, 2614888103, 3248222580, 3835390401, 4022224774,
   264347078, 604807628, 770255983, 1249150122, 1555081692, 1996064986,
   2554220882, 2821834349, 2952996808, 3210313671, 3336571891, 3584528711,
   113926993, 338241895, 666307205, 773529912, 1294757372, 1396182291,
   1695183700, 1986661051, 2177026350, 2456956037, 2730485921, 2820302411,
   3259730800, 3345764771, 3516065817, 3600352804, 4094571909, 275423344,
   430227734, 506948616, 659060556, 883997877, 958139571, 1322822218,
   1537002063, 1747873779, 1955562222, 2024104815, 2227730452, 2361852424,
   2428436474, 2756734187, 3204031479, 3329325298]

/-- SHA-256 hash state: eight 32-bit words. -/
structure Sha8 where
  h0 : Nat
  h1 : Nat
  h2 : Nat
  h3 : Nat
  h4 : Nat
  h5 : Nat
  h6 : Nat
  h7 : Nat

/-- SHA-256 initial hash value. -/
def sha256init : Sha8 :=
  ⟨1779033703, 3144134277, 1013904242, 2773480762, 1359893119, 2600822924, 528734635, 1541459225⟩

/-- Big-endian 8-byte encoding of a natural number (message bit length). -/
def be8 (n : Nat) : List Nat :=
  [n >>> 56 &&& 255, n >>> 48 &&& 255, n >>> 40 &&& 255, n >>> 32 &&& 255,
   n >>> 24 &&& 255, n >>> 16 &&& 255, n >>> 8 &&& 255, n &&& 255]

/-- SHA-256 message padding: append `0x80`, zero bytes to 56 mod 64, then the
bit length on 8 bytes. -/
def shaPad (msg : List Nat) : List Nat :=
  let L := msg.length
  let padLen := (64 - ((L + 9) % 64)) % 64
  msg ++ 128 :: (List.replicate padLen 0 ++ be8 (L * 8))

/-- Group bytes into big-endian 32-bit words. -/
def toWords : List Nat → List Nat
  | a :: b :: c :: d :: rest => (((a * 256 + b) * 256 + c) * 256 + d) :: toWords rest
  | _ => []

/-- Split a word list into 16-word blocks (fuel-driven recursion). -/
def splitBlocks : Nat → List Nat → List (List Nat)
  | 0, _ => []
  | _, [] => []
  | fuel + 1, ws => ws.take 16 :: splitBlocks fuel (ws.drop 16)

/-- Extend the message schedule by one word. -/
def scheduleStep (ws : List Nat) : List Nat :=
  let n := ws.length
  ws ++ [w32 (ws.getD (n - 16) 0 + smallSigma0 (ws.getD (n - 15) 0)
              + ws.getD (n - 7) 0 + smallSigma1 (ws.getD (n - 2) 0))]

/-- Full 64-word message schedule of one block. -/
def schedule (block : List Nat) : List Nat :=
  (List.range 48).foldl (fun ws _ => scheduleStep ws) block

/-- SHA-256 working registers. -/
structure RState where
  a : Nat
  b : Nat
  c : Nat
  d : Nat
  e : Nat
  f : Nat
  g : Nat
  h : Nat

/-- One SHA-256 compression round for a (constant, schedule word) pair. -/
def roundStep (st : RState) (kw : Nat × Nat) : RState :=
  let t1 := w32 (st.h + bigSigma1 st.e + shaCh st.e st.f st.g + kw.1 + kw.2)
  let t2 := w32 (bigSigma0 st.a + shaMaj st.a st.b st.c)
  ⟨w32 (t1 + t2), st.a, st.b, st.c, w32 (st.d + t1), st.e, st.f, st.g⟩

/-- SHA-256 compression of one 16-word block into the hash state. -/
def compress (hv : Sha8) (block : List Nat) : Sha8 :=
  let ws := schedule block
  let st0 : RState := ⟨hv.h0, hv.h1, hv.h2, hv.h3, hv.h4, hv.h5, hv.h6, hv.h7⟩
  let st := (List.zip shaK ws).foldl roundStep st0
  ⟨w32 (hv.h0 + st.a), w32 (hv.h1 + st.b), w32 (hv.h2 + st.c), w32 (hv.h3 + st.d),
   w32 (hv.h4 + st.e), w32 (hv.h5 + st.f), w32 (hv.h6 + st.g), w32 (hv.h7 + st.h)⟩

/-- SHA-256 of a byte list, as the final eight-word state. -/
def sha256words (bytes : List Nat) : Sha8 :=
  let ws := toWords (shaPad bytes)
  (splitBlocks ws.length ws).foldl compress sha256init

/-- Lowercase hexadecimal digit. -/
def hexDigit (n : Nat) : Char := if n < 10 then Char.ofNat (48 + n) else Char.ofNat (87 + n)

/-- Fixed-width (8 hex characters) rendering of a 32-bit word. -/
def wordHex (w : Nat) : List Char :=
  [hexDigit (w >>> 28 &&& 15), hexDigit (w >>> 24 &&& 15), hexDigit (w >>> 20 &&& 15),
   hexDigit (w >>> 16 &&& 15), hexDigit (w >>> 12 &&& 15), hexDigit (w >>> 8 &&& 15),
   hexDigit (w >>> 4 &&& 15), hexDigit (w &&& 15)]

/-- Model of `hashlib.sha256(bytes).hexdigest()`. -/
def sha256hex (bytes : List Nat) : String :=
  let s := sha256words bytes
  String.mk (wordHex s.h0 ++ wordHex s.h1 ++ wordHex s.h2 ++ wordHex s.h3
             ++ wordHex s.h4 ++ wordHex s.h5 ++ wordHex s.h6 ++ wordHex s.h7)

/-! ## UTF-8 and `json.dumps(..., sort_keys=True, ensure_ascii=False)` -/

/-- UTF-8 encoding of one character (model of `str.encode("utf-8")`). -/
def utf8Char (c : Char) : List Nat :=
  let n := c.toNat
  if n < 128 then [n]
  else if n < 2048 then [192 + n / 64, 128 + n % 64]
  else if n < 65536 then [224 + n / 4096, 128 + (n / 64) % 64, 128 + n % 64]
  else [240 + n / 262144, 128 + (n / 4096) % 64, 128 + (n / 64) % 64, 128 + n % 64]

/-- UTF-8 encoding of a string as a byte list. -/
def utf8Bytes (s : String) : List Nat := s.data.flatMap utf8Char

/-- JSON scalar values carried by normalized row payloads. -/
inductive JVal where
  | jnull
  | jbool (b : Bool)
  | jint (n : Int)
  | jstr (s : String)
deriving DecidableEq, Repr

/-- Character escaping of Python `json.dumps` with `ensure_ascii=False`:
escape the quote, the backslash and control characters (with the short forms
for backspace, tab, newline, form feed and carriage return). -/
def jescChar (c : Char) : List Char :=
  if c == '"' then ['\\', '"']
  else if c == '\\' then ['\\', '\\']
  else if c.toNat < 32 then
    match c.toNat with
    | 8 => ['\\', 'b']
    | 9 => ['\\', 't']
    | 10 => ['\\', 'n']
    | 12 => ['\\', 'f']
    | 13 => ['\\', 'r']
    | n => ['\\', 'u', '0', '0', hexDigit (n / 16), hexDigit (n % 16)]
  else [c]

/-- JSON string literal serialization of Python `json.dumps`. -/
def pyJsonStr (s : String) : String :=
  String.mk ('"' :: (s.data.flatMap jescChar ++ ['"']))

/-- JSON serialization of scalar values, as Python `json.dumps` renders them. -/
def JVal.dumps : JVal → String
  | .jnull => "null"
  | .jbool true => "true"
  | .jbool false => "false"
  | .jint n => toString n
  | .jstr s => pyJsonStr s

/-- Lexicographic code-point comparison of character lists: the order Python
uses on `str` when sorting dict keys. -/
def charListLe : List Char → List Char → Bool
  | [], _ => true
  | _ :: _, [] => false
  | a :: as, b :: bs =>
    if a.toNat = b.toNat then charListLe as bs
    else decide (a.toNat < b.toNat)

/-- Order on payload items used by `sort_keys=True`: compare keys as Python
compares strings. -/
def keyLe (x y : String × JVal) : Prop := charListLe x.1.data y.1.data = true

instance : DecidableRel keyLe :=
  fun x y => inferInstanceAs (Decidable (charListLe x.1.data y.1.data = true))

/-- Strict variant of the key order: key order with distinct keys. Sorted
key-distinct item lists are strictly sorted, which pins the sorted list down
uniquely among its permutations. -/
def keyLtStrict (x y : String × JVal) : Prop := keyLe x y ∧ x.1 ≠ y.1

instance : IsTotal (String × JVal) keyLe := by
  constructor
  have tot : ∀ a b : List Char, charListLe a b = true ∨ charListLe b a = true := by
    intro a
    induction a with
    | nil => intro b; exact Or.inl rfl
    | cons x xs ih =>
      intro b
      cases b with
      | nil => exact Or.inr rfl
      | cons y ys =>
        by_cases hxy : x.toNat = y.toNat
        · have h2 : y.toNat = x.toNat := hxy.symm
          simp only [charListLe, if_pos hxy, if_pos h2]
          exact ih ys
        · have h2 : ¬ y.toNat = x.toNat := fun h => hxy h.symm
          simp only [charListLe, if_neg hxy, if_neg h2, decide_eq_true_eq]
          omega
  intro a b
  exact tot a.1.data b.1.data

instance : IsTrans (String × JVal) keyLe := by
  constructor
  have tr : ∀ a b c : List Char, charListLe a b = true → charListLe b c = true →
      charListLe a c = true := by
    intro a
    induction a with
    | nil => intro b c _ _; rfl
    | cons x xs ih =>
      intro b c hab hbc
      cases b with
      | nil => simp [charListLe] at hab
      | cons y ys =>
        cases c with
        | nil => simp [charListLe] at hbc
        | cons z zs =>
          by_cases h1 : x.toNat = y.toNat <;> by_cases h2 : y.toNat = z.toNat
          · simp only [charListLe, if_pos h1] at hab
            simp only [charListLe, if_pos h2] at hbc
            simp only [charListLe, if_pos (h1.trans h2)]
            exact ih ys zs hab hbc
          · simp only [charListLe, if_neg h2, decide_eq_true_eq] at hbc
            have hxz : ¬ x.toNat = z.toNat := by omega
            simp only [charListLe, if_neg hxz, decide_eq_true_eq]
            omega
          · simp only [charListLe, if_neg h1, decide_eq_true_eq] at hab
            have hxz : ¬ x.toNat = z.toNat := by omega
            simp only [charListLe, if_neg hxz, decide_eq_true_eq]
            omega
          · simp only [charListLe, if_neg h1, decide_eq_true_eq] at hab
            simp only [charListLe, if_neg h2, decide_eq_true_eq] at hbc
            have hxz : ¬ x.toNat = z.toNat := by omega
            simp only [charListLe, if_neg hxz, decide_eq_true_eq]
            omega
  intro a b c
  exact tr a.1.data b.1.data c.1.data

instance : IsAntisymm (String × JVal) keyLtStrict := by
  constructor
  have anti : ∀ a b : List Char, charListLe a b = true → charListLe b a = true → a = b := by
    intro a
    induction a with
    | nil =>
      intro b _ hba
      cases b with
      | nil => rfl
      | cons y ys => simp [charListLe] at hba
    | cons x xs ih =>
      intro b hab hba
      cases b with
      | nil => simp [charListLe] at hab
      | cons y ys =>
        by_cases hxy : x.toNat = y.toNat
        · have hyx : y.toNat = x.toNat := hxy.symm
          simp only [charListLe, if_pos hxy] at hab
          simp only [charListLe, if_pos hyx] at hba
          have hchar : x = y := by
            have hc := Char.ofNat_toNat x
            rw [hxy, Char.ofNat_toNat] at hc
            exact hc.symm
          rw [hchar, ih ys hab hba]
        · have hyx : ¬ y.toNat = x.toNat := fun h => hxy h.symm
          simp only [charListLe, if_neg hxy, decide_eq_true_eq] at hab
          simp only [charListLe, if_neg hyx, decide_eq_true_eq] at hba
          omega
  intro a b h1 h2
  obtain ⟨hle1, hne1⟩ := h1
  obtain ⟨hle2, -⟩ := h2
  have hdata : a.1.data = b.1.data := anti a.1.data b.1.data hle1 hle2
  have hstr : a.1 = b.1 := by
    have h1' : a.1 = String.mk a.1.data := rfl
    rw [h1', hdata]
  exact absurd hstr hne1

/-- Payload items in sorted key order (a Python dict iterated with
`sort_keys=True`; dict keys are pairwise distinct). -/
def sortItems (p : List (String × JVal)) : List (String × JVal) :=
  List.insertionSort keyLe p

/-- Model of `json.dumps(payload, sort_keys=True, ensure_ascii=False)` for a
flat payload, with the default item and key separators. -/
def dumpsSorted (p : List (String × JVal)) : String :=
  "\x7b" ++ String.intercalate (", ")
      ((sortItems p).map (fun kv => pyJsonStr kv.1 ++ (": ") ++ JVal.dumps kv.2))
    ++ "\x7d"

/-- The `row_hash` value `StagingStudentRow.set_row_hash` computes for a
normalized payload. -/
def rowHashOf (p : List (String × JVal)) : String :=
  sha256hex (utf8Bytes (dumpsSorted p))

/-! ## `core/models/imports.py` -/

/-- A Django `ValidationError` carrying the offending field name (`__all__`
for non-field errors) and a message. -/
structure VErr where
  field : String
  msg : String
deriving DecidableEq

/-- One declarative transform step of an `ImportMapping`. -/
structure TransformStep where
  target : String
  ops : List String
deriving DecidableEq

/-- `ImportMapping`: column mapping template owned by an establishment. -/
structure ImportMapping where
  establishment_id : Nat
  name : String
  version : Nat
  field_mappings : List (String × String)
  transforms : List TransformStep
  aliases : List (String × List String)
  required_targets : List (Sum String (List String))
deriving DecidableEq

/-- `ImportMapping.clean`: reject more than 200 column mappings or more than
500 transform steps. -/
def ImportMapping.clean (m : ImportMapping) : Except VErr Unit :=
  if 200 < m.field_mappings.length then
    Except.error ⟨"field_mappings", "Mapping trop volumineux (plus de 200 colonnes)."⟩
  else if 500 < m.transforms.length then
    Except.error ⟨"transforms", "Trop d operations de transformation."⟩
  else Except.ok ()

/-- `ImportStatus` choices. -/
inductive ImportStatus where
  | uploaded
  | mapped
  | normalizedSt
  | validated
  | ready_to_commit
  | committed
  | failed
deriving DecidableEq

/-- `SourceType` choices. -/
inductive SourceType where
  | csv
  | xlsx
deriving DecidableEq

/-- `RowStatus` choices. -/
inductive RowStatus where
  | pending
  | normalizedSt
  | valid
  | error
deriving DecidableEq

/-- `DedupStrategy` choices. -/
inductive DedupStrategy where
  | email_phone_matricule
  | email_only
  | phone_only
  | matricule_only
deriving DecidableEq

/-- `ImportCommitLog`: final commit report of a batch (1:1). The timing
fields (`duration_ms`, `committed_at`) and the anonymized preview are ambient
effects and are not part of the model. -/
structure ImportCommitLog where
  created_users : Nat
  updated_users : Nat
  skipped_rows : Nat
  error_rows : Nat
deriving DecidableEq

/-- `StagingStudentRow`: one staged student row of a batch. -/
structure StagingStudentRow where
  batch_id : Nat
  row_index : Nat
  raw : List (String × JVal)
  normalized : List (String × JVal)
  status : RowStatus
  errors : List String
  row_hash : String
deriving DecidableEq

/-- `StagingStudentRow.set_row_hash`: store the SHA-256 of the sorted-key
JSON serialization of the normalized payload. -/
def StagingStudentRow.set_row_hash (r : StagingStudentRow) : StagingStudentRow :=
  { r with row_hash := rowHashOf r.normalized }

/-- `StagingStudentRow.save`: compute the hash only when the normalized
payload is non-empty (truthy) and no hash is stored yet, then persist. -/
def StagingStudentRow.save (r : StagingStudentRow) : StagingStudentRow :=
  if r.normalized ≠ [] ∧ r.row_hash = "" then r.set_row_hash else r

/-- Lookup in an association-list payload (Python `dict.get`). -/
def plookup : List (String × JVal) → String → Option JVal
  | [], _ => none
  | (k, v) :: rest, q => if k = q then some v else plookup rest q

/-- String-valued payload field access. -/
def getStr (p : List (String × JVal)) (k : String) : Option String :=
  match plookup p k with
  | some (JVal.jstr s) => some s
  | _ => none

/-- `StagingStudentRow.clean`: the row index is 1-based, and a present
(truthy) `current_school_year` value must be a valid school year. -/
def StagingStudentRow.clean (r : StagingStudentRow) : Except VErr Unit :=
  if r.row_index = 0 then Except.error ⟨"row_index", "row_index commence a 1."⟩
  else
    match getStr r.normalized ("current_school_year") with
    | some y =>
      if y ≠ "" then
        match validate_school_year y with
        | Except.error m => Except.error ⟨"__all__", m⟩
        | Except.ok _ => Except.ok ()
      else Except.ok ()
    | none => Except.ok ()

/-- `ImportBatch`: one ingestion run for an establishment and school year.
Its rows and (at most one) commit log are modelled inline. -/
structure ImportBatch where
  establishment_id : Nat
  school_year : String
  source_type : SourceType
  status : ImportStatus
  mapping : Option ImportMapping
  dedup_strategy : DedupStrategy
  total_rows : Nat
  valid_rows : Nat
  error_rows : Nat
  rows : List StagingStudentRow
  commit_log : Option ImportCommitLog
deriving DecidableEq

/-- `ImportBatch.clean`: the school year must validate, and the mapping, when
set, must belong to the same establishment. -/
def ImportBatch.clean (b : ImportBatch) : Except VErr Unit :=
  match validate_school_year b.school_year with
  | Except.error m => Except.error ⟨"__all__", m⟩
  | Except.ok _ =>
    match b.mapping with
    | some m =>
      if m.establishment_id ≠ b.establishment_id then
        Except.error ⟨"mapping", "Le mapping doit appartenir au meme etablissement."⟩
      else Except.ok ()
    | none => Except.ok ()

/-- An uploaded file object: its bytes and the read-cursor position. -/
structure FileObj where
  bytes : List Nat
  pos : Nat
deriving DecidableEq

/-- `ImportFile`: raw source artifact attached to a batch. -/
structure ImportFile where
  file : Option FileObj
  checksum_sha256 : String
  headers : List String
  rows_count : Nat
deriving DecidableEq

/-- Fuel-driven chunking of a byte list into `n`-byte chunks. -/
def chunksOf (n : Nat) : Nat → List Nat → List (List Nat)
  | 0, _ => []
  | _, [] => []
  | fuel + 1, l => l.take n :: chunksOf n fuel (l.drop n)

/-- Django `File.chunks()`: the file bytes in 64 KiB chunks, read from the
start; reading leaves the cursor at the end of the file. -/
def fileChunks (fo : FileObj) : List (List Nat) :=
  chunksOf 65536 fo.bytes.length fo.bytes

/-- `ImportFile.save`: when a file is present and no checksum is stored,
feed every chunk to the hash (`hashlib` streaming concatenates the chunks),
store the hex digest and rewind the cursor to position 0; otherwise persist
unchanged. -/
def ImportFile.save (f : ImportFile) : ImportFile :=
  match f.file with
  | none => f
  | some fo =>
    if f.checksum_sha256 = "" then
      let digest := sha256hex ((fileChunks fo).foldl (fun acc c => acc ++ c) [])
      { f with checksum_sha256 := digest, file := some { fo with pos := 0 } }
    else f

/-! ## `core/models/user.py` and `core/models/student.py` -/

/-- Platform user, with the attributes the student pipeline reads. The
`role` attribute is read by `StudentProfile.clean` (`user.role`): user.py
declares roles through the `UserRole` junction table and no `role` field,
so it is modelled here as the string attribute the calling code accesses. -/
structure UserM where
  email : String
  full_name : String
  phone : String
  establishment_id : Option Nat
  role : String
  is_staff : Bool
  is_superuser : Bool
deriving DecidableEq

/-- `User.clean`: re-normalize the email (strip then lowercase) when
present, strip the full name when present, strip the phone when present and
validate it against the CEMAC rules. Django `clean` mutates the instance
(field updates happen before the phone validation can raise), so the
successfully cleaned user is returned on the `ok` path. -/
def UserM.clean (u : UserM) : Except VErr UserM :=
  if u.phone ≠ "" then
    match validate_central_africa_phone (pyStrip u.phone) with
    | Except.error m => Except.error ⟨"__all__", m⟩
    | Except.ok _ =>
      Except.ok ⟨(if u.email ≠ "" then pyLower (pyStrip u.email) else u.email),
                 (if u.full_name ≠ "" then pyStrip u.full_name else u.full_name),
                 pyStrip u.phone, u.establishment_id, u.role, u.is_staff, u.is_superuser⟩
  else
    Except.ok ⟨(if u.email ≠ "" then pyLower (pyStrip u.email) else u.email),
               (if u.full_name ≠ "" then pyStrip u.full_name else u.full_name),
               u.phone, u.establishment_id, u.role, u.is_staff, u.is_superuser⟩

/-- Split a character list at its last `@`, returning the local part and the
domain part (Python `rsplit("@", 1)` with `maxsplit` reached). -/
def splitLastAmp : List Char → Option (List Char × List Char)
  | [] => none
  | c :: cs =>
    match splitLastAmp cs with
    | some (l, d) => some (c :: l, d)
    | none => if c = '@' then some ([], cs) else none

/-- `BaseUserManager.normalize_email`: strip the whole address, lowercase
the domain part after the last `@`; an address without `@` is returned
unchanged. -/
def normalize_email (e : String) : String :=
  match splitLastAmp (pyStrip e).data with
  | none => e
  | some (l, d) => String.mk (l ++ '@' :: pyLowerL d)

/-- `UserManager._create_user`: require an email, normalize it
(`normalize_email` then `strip().lower()`), require a stripped full name of
length at least 2 and a stripped non-empty CEMAC phone, then run
`full_clean` (modelled by `User.clean`) and persist. Password handling is an
external collaborator and is not modelled. -/
def UserManager._create_user (email full_name phone : String)
    (establishment_id : Option Nat) (role : String)
    (is_staff is_superuser : Bool) : Except String UserM :=
  if email = "" then Except.error ("Email requis.")
  else if (pyStrip full_name).length < 2 then
    Except.error ("Le nom complet doit contenir au moins 2 caracteres.")
  else if pyStrip phone = "" then
    Except.error ("Le numero de telephone est requis.")
  else
    match validate_central_africa_phone (pyStrip phone) with
    | Except.error m => Except.error m
    | Except.ok _ =>
      match UserM.clean ⟨pyLower (pyStrip (normalize_email email)), pyStrip full_name,
          pyStrip phone, establishment_id, role, is_staff, is_superuser⟩ with
      | Except.error e => Except.error e.msg
      | Except.ok u2 => Except.ok u2

/-- `UserManager.create_user`: `_create_user` with the staff and superuser
flags defaulted to false. -/
def UserManager.create_user (email full_name phone : String)
    (establishment_id : Option Nat) (role : String) : Except String UserM :=
  UserManager._create_user email full_name phone establishment_id role false false

/-- `UserManager.create_superuser`: `_create_user` with both flags defaulted
to true (the explicit guards cannot fire on the defaulted values). -/
def UserManager.create_superuser (email full_name phone : String)
    (establishment_id : Option Nat) (role : String) : Except String UserM :=
  UserManager._create_user email full_name phone establishment_id role true true

/-- `Program`: carrier of department and level, owned by an establishment. -/
structure ProgramM where
  establishment_id : Nat
  department_id : Nat
  level_id : Nat
deriving DecidableEq

/-- `StudentProfile`: per-tenant student profile. Dates are day numbers;
`today` is passed explicitly where the code reads the clock. -/
structure StudentProfile where
  user : UserM
  establishment_id : Nat
  program : Option ProgramM
  matricule : String
  current_school_year : String
  date_of_birth : Option Nat
  parent_phone_1 : String
  parent_phone_2 : String
deriving DecidableEq

/-- `StudentProfile.clean`: in source order — the user must have the student
role; the user must belong to the profile establishment; the program, when
set, must belong to the same establishment; the school year must validate;
the birth date must not be in the future; present parent phones must pass
the CEMAC validator. -/
def StudentProfile.clean (p : StudentProfile) (today : Nat) : Except VErr Unit :=
  if p.user.role ≠ "student" then
    Except.error ⟨"user", "Le user lie doit avoir le role student."⟩
  else if p.user.establishment_id ≠ some p.establishment_id then
    Except.error ⟨"establishment", "Doit egaler user.establishment."⟩
  else if p.program.any (fun pr => pr.establishment_id != p.establishment_id) then
    Except.error ⟨"program", "La filiere doit appartenir au meme etablissement (tenant)."⟩
  else
    match validate_school_year p.current_school_year with
    | Except.error m => Except.error ⟨"__all__", m⟩
    | Except.ok _ =>
      if p.date_of_birth.any (fun d => decide (today < d)) then
        Except.error ⟨"date_of_birth", "La date de naissance ne peut pas etre future."⟩
      else
        match (if p.parent_phone_1 ≠ "" then validate_central_africa_phone p.parent_phone_1
               else Except.ok ()) with
        | Except.error m => Except.error ⟨"__all__", m⟩
        | Except.ok _ =>
          match (if p.parent_phone_2 ≠ "" then validate_central_africa_phone p.parent_phone_2
                 else Except.ok ()) with
          | Except.error m => Except.error ⟨"__all__", m⟩
          | Except.ok _ => Except.ok ()

/-- `StudentProfile.save`: run `full_clean` (modelled by `clean`) first, and
persist into the profile table only when it passes. -/
def StudentProfile.save (db : List StudentProfile) (p : StudentProfile) (today : Nat) :
    Except VErr (List StudentProfile) :=
  match p.clean today with
  | Except.error e => Except.error e
  | Except.ok _ => Except.ok (db ++ [p])

/-! ## Commit transaction of the Batch Coordinator

Modelled from the spec: the commit service itself is not among the model
files (only the staging models are); sections 4.4 and 4.5 of the
specification describe it. -/

/-- Modelled from the spec: the identity keys probed by the Dedup Resolver. -/
inductive DedupKey where
  | email
  | phone
  | matricule
deriving DecidableEq

/-- Modelled from the spec: the ordered key list of each `DedupStrategy`
(priority email > phone > matricule, or a single-key variant). -/
def strategyKeys : DedupStrategy → List DedupKey
  | DedupStrategy.email_phone_matricule => [DedupKey.email, DedupKey.phone, DedupKey.matricule]
  | DedupStrategy.email_only => [DedupKey.email]
  | DedupStrategy.phone_only => [DedupKey.phone]
  | DedupStrategy.matricule_only => [DedupKey.matricule]

/-- A persisted student record: its identity keys (never updated) and its
mutable profile fields. -/
structure Student where
  email : Option String
  phone : Option String
  matricule : Option String
  fields : List (String × JVal)
deriving DecidableEq

/-- Identity-key value of a student for one dedup key. -/
def idKeyOf : DedupKey → Student → Option String
  | DedupKey.email, s => s.email
  | DedupKey.phone, s => s.phone
  | DedupKey.matricule, s => s.matricule

/-- Identity-key value carried by a normalized row payload for one dedup key. -/
def rowKeyOf : DedupKey → List (String × JVal) → Option String
  | DedupKey.email, p => getStr p ("email")
  | DedupKey.phone, p => getStr p ("phone")
  | DedupKey.matricule, p => getStr p ("matricule")

/-- Index of the first list element satisfying a predicate. -/
def firstIdx (p : α → Bool) : List α → Option Nat
  | [] => none
  | a :: l => if p a then some 0 else (firstIdx p l).map (· + 1)

/-- Modelled from the spec: probe the tenant student table for an existing
student whose identity key `k` equals `v`; the first match wins. -/
def matchIdx (students : List Student) (k : DedupKey) (v : String) : Option Nat :=
  firstIdx (fun s => idKeyOf k s == some v) students

/-- Modelled from the spec: for every configured key present in the row, the
student it matches, in priority order. -/
def rowMatches (students : List Student) (keys : List DedupKey)
    (p : List (String × JVal)) : List Nat :=
  keys.filterMap (fun k => (rowKeyOf k p).bind (matchIdx students k))

/-- Outcome of the Dedup Resolver. -/
inductive DedupResult where
  | isNew
  | existing (i : Nat)
  | conflict
deriving DecidableEq

/-- Modelled from the spec: no matching key means a new student; matches all
pointing at one student mean that existing student; two keys matching two
different students mean a `DedupConflict`. -/
def dedupResolve (students : List Student) (keys : List DedupKey)
    (p : List (String × JVal)) : DedupResult :=
  match rowMatches students keys p with
  | [] => DedupResult.isNew
  | i :: rest => if rest.all (fun j => j == i) then DedupResult.existing i else DedupResult.conflict

/-- Persistent state the commit transaction acts on: the tenant student
table and the registry of committed row hashes, keyed by
(tenant, school year, row hash). -/
structure CommitState where
  students : List Student
  committedHashes : List (Nat × String × String)
deriving DecidableEq

/-- The identity-key triple of a student, the part of a student record the
Dedup Resolver reads and updates never change. -/
def idKeys3 (s : Student) : Option String × Option String × Option String :=
  (s.email, s.phone, s.matricule)

/-- Projection of an identity-key triple for one dedup key. -/
def projKey : DedupKey → Option String × Option String × Option String → Option String
  | DedupKey.email, t => t.1
  | DedupKey.phone, t => t.2.1
  | DedupKey.matricule, t => t.2.2

/-- Commit-state evolution relation: the student table grows only by
appending (existing entries keep their identity keys and position), and the
committed-hash registry only gains entries. Every `commitRow` step respects
it. -/
def StMono (st st' : CommitState) : Prop :=
  (∃ ext, st'.students.map idKeys3 = st.students.map idKeys3 ++ ext)
  ∧ ∀ x ∈ st.committedHashes, x ∈ st'.committedHashes

/-- Per-run commit dispositions, aggregated into the commit log. -/
structure Dispositions where
  created : Nat
  updated : Nat
  skipped : Nat
  errors : Nat
deriving DecidableEq

/-- A student created from a normalized row payload. -/
def mkStudent (p : List (String × JVal)) : Student :=
  ⟨getStr p ("email"), getStr p ("phone"), getStr p ("matricule"), p⟩

/-- Modelled from the spec: disposition of one valid row at commit time. A
row whose hash was already committed for this tenant and school year is
skipped as a duplicate; otherwise the Dedup Resolver decides between a
conflict (row-level commit error), an update of the matching student's
mutable fields (never its identity keys), and the creation of a new
student; committed rows register their hash. -/
def commitRow (tenant : Nat) (year : String) (keys : List DedupKey)
    (acc : CommitState × Dispositions) (r : StagingStudentRow) :
    CommitState × Dispositions :=
  if (tenant, year, r.row_hash) ∈ acc.1.committedHashes then
    (acc.1, { acc.2 with skipped := acc.2.skipped + 1 })
  else
    match dedupResolve acc.1.students keys r.normalized with
    | DedupResult.conflict => (acc.1, { acc.2 with errors := acc.2.errors + 1 })
    | DedupResult.existing i =>
      (⟨(match acc.1.students[i]? with
          | some s => acc.1.students.set i { s with fields := r.normalized }
          | none => acc.1.students),
         (tenant, year, r.row_hash) :: acc.1.committedHashes⟩,
       { acc.2 with updated := acc.2.updated + 1 })
    | DedupResult.isNew =>
      (⟨acc.1.students ++ [mkStudent r.normalized],
         (tenant, year, r.row_hash) :: acc.1.committedHashes⟩,
       { acc.2 with created := acc.2.created + 1 })

/-- Row order used by the commit phase: ascending row index. -/
def rowIdxLe (a b : StagingStudentRow) : Prop := a.row_index ≤ b.row_index

instance : DecidableRel rowIdxLe :=
  fun a b => inferInstanceAs (Decidable (a.row_index ≤ b.row_index))

/-- Batch rows in ascending row-index order. -/
def sortRows (rows : List StagingStudentRow) : List StagingStudentRow :=
  List.insertionSort rowIdxLe rows

/-- Number of batch rows in a given status. -/
def countStatus (rows : List StagingStudentRow) (s : RowStatus) : Nat :=
  (rows.filter (fun r => r.status == s)).length

/-- Modelled from the spec: the commit transaction. Valid rows are processed
in ascending row-index order through `commitRow`; the counters are
recomputed from the authoritative row statuses, never hand-incremented; the
batch reaches the terminal `committed` status; the 1:1 append-only commit
log is written only when the batch does not have one yet. -/
def ImportBatch.commit (st : CommitState) (b : ImportBatch) : CommitState × ImportBatch :=
  let vrows := (sortRows b.rows).filter (fun r => r.status == RowStatus.valid)
  let res := vrows.foldl
    (commitRow b.establishment_id b.school_year (strategyKeys b.dedup_strategy))
    (st, ⟨0, 0, 0, 0⟩)
  (res.1,
   { b with
     status := ImportStatus.committed,
     total_rows := b.rows.length,
     valid_rows := countStatus b.rows RowStatus.valid,
     error_rows := countStatus b.rows RowStatus.error,
     commit_log :=
       match b.commit_log with
       | some log => some log
       | none => some ⟨res.2.created, res.2.updated, res.2.skipped, res.2.errors⟩ })

/-! Spec-side predicates for the school-year claim (from the words of the
specification, to be compared with the code-side function). -/

/-- Spec-side reading of the claimed format: after trimming, exactly four
digits, a dash, four digits, with the captured year values returned. -/
def claimYearFormat (s : String) : Option (Nat × Nat) :=
  match s.data with
  | a :: b :: c :: d :: '-' :: e :: f :: g :: h :: [] =>
    if a.isDigit && b.isDigit && c.isDigit && d.isDigit
        && e.isDigit && f.isDigit && g.isDigit && h.isDigit then
      some (1000 * digitVal a + 100 * digitVal b + 10 * digitVal c + digitVal d,
            1000 * digitVal e + 100 * digitVal f + 10 * digitVal g + digitVal h)
    else none
  | _ => none

/-- Spec-side acceptance predicate of the claim: trimmed input is
`YYYY-YYYY`, the end year is the start year plus one, and the start year is
within 2000..2100. -/
def schoolYearSpecClaim (s : String) : Bool :=
  match claimYearFormat (pyStrip s) with
  | some (a, b) => b == a + 1 && decide (2000 ≤ a) && decide (a ≤ 2100)
  | none => false

/-- Spec-side reading of the E.164 shape claimed for phone numbers, on a
character list: an optional leading plus sign, then 8 to 15 digits of which
the first is 1-9. -/
def e164SpecData (l : List Char) : Prop :=
  ∃ c0 cs, (l = c0 :: cs ∨ l = '+' :: c0 :: cs)
    ∧ c0.isDigit = true ∧ c0 ≠ '0'
    ∧ (∀ c ∈ cs, c.isDigit = true)
    ∧ 8 ≤ (c0 :: cs).length ∧ (c0 :: cs).length ≤ 15

/-- Spec-side reading of the E.164 shape claimed for phone numbers: an
optional leading plus sign, then 8 to 15 digits of which the first is 1-9. -/
def e164SpecOk (v : String) : Prop := e164SpecData v.data

/-! # Theorems -/

/-! ## General helper lemmas -/

/-- `Char.toNat` is injective. -/
theorem charToNat_inj {c d : Char} (h : c.toNat = d.toNat) : c = d := by
  have hc := Char.ofNat_toNat c
  rw [h, Char.ofNat_toNat] at hc
  exact hc.symm

/-- Streaming the chunks of a byte list into an accumulator concatenates to
the whole byte list. -/
theorem chunksOf_foldl (n : Nat) (hn : 0 < n) (fuel : Nat) :
    ∀ (l acc : List Nat), l.length ≤ fuel →
      (chunksOf n fuel l).foldl (fun a c => a ++ c) acc = acc ++ l := by
  induction fuel with
  | zero =>
    intro l acc h
    have hl : l = [] := List.eq_nil_of_length_eq_zero (Nat.le_zero.mp h)
    subst hl
    simp [chunksOf]
  | succ fuel ih =>
    intro l acc h
    cases l with
    | nil => simp [chunksOf]
    | cons x xs =>
      have hstep : chunksOf n (fuel + 1) (x :: xs)
          = (x :: xs).take n :: chunksOf n fuel ((x :: xs).drop n) := rfl
      rw [hstep, List.foldl_cons]
      rw [ih ((x :: xs).drop n) (acc ++ (x :: xs).take n)
            (by simp only [List.length_drop, List.length_cons] at h ⊢; omega)]
      rw [List.append_assoc, List.take_append_drop]

/-- Each 32-bit word renders as exactly 8 hex characters. -/
theorem wordHex_length (w : Nat) : (wordHex w).length = 8 := rfl

/-- A SHA-256 hex digest has 64 characters. -/
theorem sha256hex_data_length (bytes : List Nat) : (sha256hex bytes).data.length = 64 := by
  show (wordHex _ ++ wordHex _ ++ wordHex _ ++ wordHex _
       ++ wordHex _ ++ wordHex _ ++ wordHex _ ++ wordHex _).length = 64
  simp [List.length_append, wordHex_length]

/-- A SHA-256 hex digest is never the empty string. -/
theorem sha256hex_ne_empty (bytes : List Nat) : sha256hex bytes ≠ "" := by
  intro h
  have h64 := sha256hex_data_length bytes
  rw [h] at h64
  exact (by decide : ¬ (("" : String).data.length = 64)) h64

/-! ## C7 — ImportMapping size bounds -/

/-- C7: `ImportMapping.clean` succeeds exactly when there are at most 200
field mappings and at most 500 transform steps; in particular exactly 200
mappings and exactly 500 steps pass, and any excess on either bound raises. -/
theorem import_mapping_size_bounds (m : ImportMapping) :
    m.clean = Except.ok () ↔
      (m.field_mappings.length ≤ 200 ∧ m.transforms.length ≤ 500) := by
  unfold ImportMapping.clean
  split_ifs with h1 h2 <;> simp <;> omega

/-! ## C8 — ImportBatch mapping must share the establishment -/

/-- C8: `ImportBatch.clean` rejects a batch whose mapping belongs to another
establishment, and accepts a batch with a valid school year whose mapping is
absent or belongs to the batch establishment. -/
theorem import_batch_mapping_tenant :
    (∀ (b : ImportBatch) (m : ImportMapping), b.mapping = some m →
        m.establishment_id ≠ b.establishment_id → b.clean ≠ Except.ok ())
    ∧ (∀ b : ImportBatch, validate_school_year b.school_year = Except.ok () →
        (b.mapping = none ∨ (∃ m, b.mapping = some m ∧ m.establishment_id = b.establishment_id)) →
        b.clean = Except.ok ()) := by
  constructor
  · intro b m hm hne hok
    unfold ImportBatch.clean at hok
    cases hv : validate_school_year b.school_year with
    | error e => rw [hv] at hok; simp at hok
    | ok u => cases u; rw [hv, hm] at hok; simp [hne] at hok
  · intro b hv hcase
    unfold ImportBatch.clean
    rw [hv]
    rcases hcase with hnone | ⟨m, hm, heq⟩
    · rw [hnone]
    · rw [hm]; simp [heq]

/-- Witness for C8 at concrete batches: a cross-tenant mapping is rejected
and a same-tenant mapping with a valid school year passes. -/
theorem import_batch_mapping_tenant_witness :
    (ImportBatch.clean
        ⟨1, "2025-2026", SourceType.csv, ImportStatus.uploaded,
          some ⟨2, "m", 1, [], [], [], []⟩, DedupStrategy.email_only, 0, 0, 0, [], none⟩
      ≠ Except.ok ())
    ∧ (ImportBatch.clean
        ⟨1, "2025-2026", SourceType.csv, ImportStatus.uploaded,
          some ⟨1, "m", 1, [], [], [], []⟩, DedupStrategy.email_only, 0, 0, 0, [], none⟩
      = Except.ok ()) :=
  ⟨import_batch_mapping_tenant.1
      ⟨1, "2025-2026", SourceType.csv, ImportStatus.uploaded,
        some ⟨2, "m", 1, [], [], [], []⟩, DedupStrategy.email_only, 0, 0, 0, [], none⟩
      ⟨2, "m", 1, [], [], [], []⟩ rfl (by decide),
   import_batch_mapping_tenant.2
      ⟨1, "2025-2026", SourceType.csv, ImportStatus.uploaded,
        some ⟨1, "m", 1, [], [], [], []⟩, DedupStrategy.email_only, 0, 0, 0, [], none⟩
      (by decide) (Or.inr ⟨⟨1, "m", 1, [], [], [], []⟩, rfl, rfl⟩)⟩

/-! ## C6 — ImportFile checksum: lazy, chunked, cursor rewound -/

/-- C6: when a file is present and no checksum is stored, `ImportFile.save`
stores the SHA-256 hex digest of the full file bytes (fed chunk by chunk)
and rewinds the cursor to position 0; saving again leaves the stored
checksum unchanged; and a save with a present checksum or absent file
changes nothing. -/
theorem import_file_checksum :
    (∀ (f : ImportFile) (fo : FileObj), f.file = some fo → f.checksum_sha256 = "" →
        (f.save).checksum_sha256 = sha256hex fo.bytes
        ∧ (f.save).file = some ⟨fo.bytes, 0⟩
        ∧ (f.save).save = f.save)
    ∧ (∀ f : ImportFile, f.checksum_sha256 ≠ "" → f.save = f)
    ∧ (∀ f : ImportFile, f.file = none → f.save = f) := by
  refine ⟨?_, ?_, ?_⟩
  · intro f fo hfile hck
    have hbytes : (fileChunks fo).foldl (fun a c => a ++ c) [] = fo.bytes := by
      have := chunksOf_foldl 65536 (by omega) fo.bytes.length fo.bytes [] (Nat.le_refl _)
      simpa [fileChunks] using this
    have hsave : f.save
        = { f with checksum_sha256 := sha256hex fo.bytes, file := some ⟨fo.bytes, 0⟩ } := by
      simp [ImportFile.save, hfile, hck, hbytes]
    refine ⟨by rw [hsave], by rw [hsave], ?_⟩
    rw [hsave]
    simp [ImportFile.save, sha256hex_ne_empty fo.bytes]
  · intro f h
    cases hf : f.file with
    | none => simp [ImportFile.save, hf]
    | some fo => simp [ImportFile.save, hf, h]
  · intro f h
    simp [ImportFile.save, h]

/-- Witness for C6 at a concrete file: the checksum of an empty file is the
well-known SHA-256 digest of the empty byte string, and the cursor is
rewound. -/
theorem import_file_checksum_witness :
    ((ImportFile.save ⟨some ⟨[], 5⟩, "", [], 0⟩).checksum_sha256 = sha256hex []
      ∧ (ImportFile.save ⟨some ⟨[], 5⟩, "", [], 0⟩).file = some ⟨[], 0⟩)
    ∧ sha256hex [] = "e3b0c44298fc1c149afbf4c8996fb92427ae41e4649b934ca495991b7852b855" :=
  ⟨⟨(import_file_checksum.1 ⟨some ⟨[], 5⟩, "", [], 0⟩ ⟨[], 5⟩ rfl rfl).1,
    (import_file_checksum.1 ⟨some ⟨[], 5⟩, "", [], 0⟩ ⟨[], 5⟩ rfl rfl).2.1⟩,
   by decide⟩

/-! ## C2 — StagingStudentRow.save computes the row hash lazily -/

/-- C2 (amended): `StagingStudentRow.save` stores the SHA-256 of the
sorted-key JSON serialization of the current normalized payload exactly when
the payload is non-empty and no hash is stored yet; a row that already
carries a hash keeps it unchanged on save, even when `normalized` was
modified in the meantime. -/
theorem row_save_hash_lazy :
    (∀ r : StagingStudentRow, r.normalized ≠ [] → r.row_hash = "" →
        (r.save).row_hash = rowHashOf r.normalized)
    ∧ (∀ r : StagingStudentRow, r.row_hash ≠ "" → (r.save).row_hash = r.row_hash) := by
  constructor
  · intro r h1 h2
    unfold StagingStudentRow.save
    rw [if_pos ⟨h1, h2⟩]
    rfl
  · intro r h
    unfold StagingStudentRow.save
    rw [if_neg]
    intro hc
    exact h hc.2

/-- Witness for C2 at concrete rows: a fresh row gets the hash of its
payload; a row with a stored hash keeps it. -/
theorem row_save_hash_lazy_witness :
    (StagingStudentRow.save ⟨1, 1, [], [("a", JVal.jstr "1")], RowStatus.pending, [], ""⟩).row_hash
        = rowHashOf [("a", JVal.jstr "1")]
    ∧ (StagingStudentRow.save
          ⟨1, 1, [], [("a", JVal.jstr "2")], RowStatus.pending, [], "stale"⟩).row_hash
        = "stale" :=
  ⟨row_save_hash_lazy.1 ⟨1, 1, [], [("a", JVal.jstr "1")], RowStatus.pending, [], ""⟩
      (by decide) rfl,
   row_save_hash_lazy.2 ⟨1, 1, [], [("a", JVal.jstr "2")], RowStatus.pending, [], "stale"⟩
      (by decide)⟩

/-- Counterexample to C2 as stated: save a row, change its normalized
payload, save again — the stored hash is the stale hash of the old payload,
not the SHA-256 of the current payload. -/
theorem row_save_stale_hash_cex :
    (StagingStudentRow.save
        { StagingStudentRow.save ⟨1, 1, [], [("a", JVal.jstr "1")], RowStatus.pending, [], ""⟩ with
            normalized := [("a", JVal.jstr "2")] }).row_hash
      ≠ rowHashOf [("a", JVal.jstr "2")] := by decide

/-! ## C3 — cross-tenant program references are rejected -/

/-- C3 (amended): a profile whose program belongs to another establishment
never passes `StudentProfile.clean` and is never persisted by
`StudentProfile.save`; the raised error names the `program` field whenever
the two preceding checks (user role, user establishment) pass — an earlier
failing check raises under its own field name instead. -/
theorem cross_tenant_program_rejected :
    ∀ (p : StudentProfile) (today : Nat) (pr : ProgramM),
      p.program = some pr → pr.establishment_id ≠ p.establishment_id →
      (p.clean today ≠ Except.ok ())
      ∧ (p.user.role = "student" → p.user.establishment_id = some p.establishment_id →
          p.clean today
            = Except.error ⟨"program", "La filiere doit appartenir au meme etablissement (tenant)."⟩)
      ∧ (∀ (db db' : List StudentProfile), StudentProfile.save db p today ≠ Except.ok db') := by
  intro p today pr hp hne
  have hprog : p.program.any (fun q => q.establishment_id != p.establishment_id) = true := by
    rw [hp]
    simp only [Option.any_some, bne_iff_ne, ne_eq]
    exact hne
  have hclean : p.clean today ≠ Except.ok ()
      ∧ (p.user.role = "student" → p.user.establishment_id = some p.establishment_id →
          p.clean today
            = Except.error ⟨"program", "La filiere doit appartenir au meme etablissement (tenant)."⟩) := by
    unfold StudentProfile.clean
    by_cases hrole : p.user.role ≠ "student"
    · rw [if_pos hrole]
      exact ⟨by simp, fun hr => absurd hr hrole⟩
    · rw [if_neg hrole]
      by_cases hest : p.user.establishment_id ≠ some p.establishment_id
      · rw [if_pos hest]
        exact ⟨by simp, fun _ he => absurd he hest⟩
      · rw [if_neg hest, if_pos hprog]
        exact ⟨by simp, fun _ _ => rfl⟩
  refine ⟨hclean.1, hclean.2, ?_⟩
  intro db db' hok
  unfold StudentProfile.save at hok
  cases hc : p.clean today with
  | error e => rw [hc] at hok; simp at hok
  | ok u => cases u; exact hclean.1 hc

/-- Witness for C3 at a concrete profile: a student-role user of tenant 1
with a program of tenant 2 is rejected with the `program` field named. -/
theorem cross_tenant_program_rejected_witness :
    StudentProfile.clean
        ⟨⟨"s@x.com", "Stu Dent", "+237611111111", some 1, "student", false, false⟩, 1,
          some ⟨2, 1, 1⟩, "M1", "2025-2026", some 100, "", ""⟩ 200
      = Except.error ⟨"program", "La filiere doit appartenir au meme etablissement (tenant)."⟩ :=
  (cross_tenant_program_rejected
      ⟨⟨"s@x.com", "Stu Dent", "+237611111111", some 1, "student", false, false⟩, 1,
        some ⟨2, 1, 1⟩, "M1", "2025-2026", some 100, "", ""⟩ 200 ⟨2, 1, 1⟩ rfl
      (by decide)).2.1 rfl rfl

/-- Counterexample to C3 as stated: for a profile whose user role is not
`student`, a cross-tenant program (establishment 2 against profile
establishment 1) makes `clean` raise under the `user` field, not the
`program` field. -/
theorem cross_tenant_program_field_cex :
    ((match StudentProfile.clean
          ⟨⟨"s@x.com", "Stu Dent", "+237611111111", some 1, "teacher", false, false⟩, 1,
            some ⟨2, 1, 1⟩, "M1", "2025-2026", some 100, "", ""⟩ 200 with
        | Except.error e => e.field
        | Except.ok _ => "") = "user")
    ∧ StudentProfile.clean
          ⟨⟨"s@x.com", "Stu Dent", "+237611111111", some 1, "teacher", false, false⟩, 1,
            some ⟨2, 1, 1⟩, "M1", "2025-2026", some 100, "", ""⟩ 200
        ≠ Except.error ⟨"program", "La filiere doit appartenir au meme etablissement (tenant)."⟩ := by
  constructor
  · decide
  · decide

/-! ## C4 — school-year validation -/

/-- Bounds of a decimal digit character. -/
theorem isDigit_toNat {c : Char} (h : c.isDigit = true) : 48 ≤ c.toNat ∧ c.toNat ≤ 57 := by
  simp [Char.isDigit] at h
  exact h

/-- The regex model only ever captures years of the form `20XX`. -/
theorem syMatch_bounds {t : String} {a b : Nat} (h : syMatch t = some (a, b)) :
    2000 ≤ a ∧ a ≤ 2099 ∧ 2000 ≤ b ∧ b ≤ 2099 := by
  unfold syMatch at h
  split at h
  · next c1 c2 c3 c4 =>
    split at h
    · next hd =>
      simp only [Bool.and_eq_true] at hd
      obtain ⟨⟨⟨h1, h2⟩, h3⟩, h4⟩ := hd
      have b1 := isDigit_toNat h1
      have b2 := isDigit_toNat h2
      have b3 := isDigit_toNat h3
      have b4 := isDigit_toNat h4
      simp only [Option.some.injEq, Prod.mk.injEq] at h
      obtain ⟨ha, hb⟩ := h
      subst ha hb
      unfold digitVal
      omega
    · exact absurd h (by simp)
  · exact absurd h (by simp)

/-- Reduction of `validate_school_year` once the regex has matched. -/
theorem validate_school_year_some {s : String} {a b : Nat} (hs : s ≠ "")
    (hm : syMatch (pyStrip s) = some (a, b)) :
    validate_school_year s
      = (if (b : Int) - (a : Int) ≠ 1 then
           Except.error ("Annee scolaire incoherente: la deuxieme annee doit etre la premiere + 1.")
         else if ¬ (2000 ≤ a ∧ a ≤ 2100) then
           Except.error ("Annee scolaire hors plage autorisee (2000-2100).")
         else Except.ok ()) := by
  unfold validate_school_year
  rw [if_neg hs, hm]

/-- C4 (amended): `validate_school_year` accepts exactly the strings whose
stripped form matches `20XX-20YY` with the second year equal to the first
plus one; since both captured years lie in 2000..2099, the accepted start
years are 2000..2098 and the explicit 2000..2100 range check can never
reject a string the regex admitted. -/
theorem school_year_accept_iff (s : String) :
    validate_school_year s = Except.ok () ↔
      ∃ a, 2000 ≤ a ∧ a ≤ 2098 ∧ syMatch (pyStrip s) = some (a, a + 1) := by
  by_cases hs : s = ""
  · subst hs
    have h0 : syMatch (pyStrip "") = none := rfl
    unfold validate_school_year
    simp [h0]
  · cases hm : syMatch (pyStrip s) with
    | none =>
      have hred : validate_school_year s
          = Except.error ("Format invalide. Utiliser YYYY-YYYY (ex: 2024-2025).") := by
        unfold validate_school_year
        rw [if_neg hs, hm]
      simp [hred]
    | some ab =>
      obtain ⟨a, b⟩ := ab
      have hb := syMatch_bounds hm
      rw [validate_school_year_some hs hm]
      by_cases h1 : (b : Int) - (a : Int) ≠ 1
      · rw [if_pos h1]
        simp only [reduceCtorEq, false_iff, not_exists, not_and]
        intro a' _ _ heq
        simp only [Option.some.injEq, Prod.mk.injEq] at heq
        omega
      · rw [if_neg h1]
        rw [if_neg (by omega : ¬ ¬ (2000 ≤ a ∧ a ≤ 2100))]
        simp only [true_iff]
        refine ⟨a, by omega, by omega, ?_⟩
        have hba : b = a + 1 := by omega
        rw [← hba]

/-- Counterexample to C4 as stated: the first year 2099 lies in the claimed
range 2000..2100 and the end year is start plus one, yet the code rejects
`2099-2100` because the second capture group only admits `20XX`. -/
theorem school_year_range_cex :
    schoolYearSpecClaim ("2099-2100") = true
    ∧ validate_school_year ("2099-2100") ≠ Except.ok () := by
  constructor
  · decide
  · decide

/-! ## C9 — CEMAC phone validation -/

/-- The regex body accepts exactly the digit strings described by the spec:
first digit 1-9, all digits, 8 to 15 digits in total. -/
theorem e164Core_iff (l : List Char) :
    e164Core l = true ↔
      ∃ c0 cs, l = c0 :: cs ∧ c0.isDigit = true ∧ c0 ≠ '0'
        ∧ (∀ c ∈ cs, c.isDigit = true)
        ∧ 8 ≤ (c0 :: cs).length ∧ (c0 :: cs).length ≤ 15 := by
  cases l with
  | nil => simp [e164Core]
  | cons c cs =>
    unfold e164Core
    simp only [Bool.and_eq_true, Bool.not_eq_true', beq_eq_false_iff_ne, ne_eq,
      List.all_eq_true, decide_eq_true_eq, List.length_cons]
    constructor
    · rintro ⟨⟨⟨⟨h1, h2⟩, h3⟩, h4⟩, h5⟩
      exact ⟨c, cs, rfl, h1, h2, h3, by omega, by omega⟩
    · rintro ⟨c0, cs0, heq, h1, h2, h3, h4, h5⟩
      cases heq
      exact ⟨⟨⟨⟨h1, h2⟩, h3⟩, by simp at h4 ⊢; omega⟩, by simp at h5 ⊢; omega⟩

/-- Reduction of `e164CoreOpt` on an empty list. -/
theorem e164CoreOpt_nil : e164CoreOpt [] = false := rfl

/-- Reduction of `e164CoreOpt` on a non-empty list. -/
theorem e164CoreOpt_cons (c : Char) (rest : List Char) :
    e164CoreOpt (c :: rest) = if c = '+' then e164Core rest else e164Core (c :: rest) := rfl

/-- The anchored regex body agrees with the spec-side E.164 description. -/
theorem e164CoreOpt_iff (l : List Char) : e164CoreOpt l = true ↔ e164SpecData l := by
  unfold e164SpecData
  cases l with
  | nil =>
    rw [e164CoreOpt_nil]
    constructor
    · intro h; cases h
    · rintro ⟨c0, cs, h | h, -⟩ <;> cases h
  | cons c rest =>
    rw [e164CoreOpt_cons]
    by_cases hc : c = '+'
    · subst hc
      rw [if_pos rfl, e164Core_iff]
      constructor
      · rintro ⟨c0, cs, heq, h1, h2, h3, h4, h5⟩
        exact ⟨c0, cs, Or.inr (by rw [heq]), h1, h2, h3, h4, h5⟩
      · rintro ⟨c0, cs, h | h, h1, h2, h3, h4, h5⟩
        · injection h with ha hb
          rw [← ha] at h1
          exact absurd h1 (by decide)
        · injection h with ha hb
          exact ⟨c0, cs, hb, h1, h2, h3, h4, h5⟩
    · rw [if_neg hc, e164Core_iff]
      constructor
      · rintro ⟨c0, cs, heq, h1, h2, h3, h4, h5⟩
        exact ⟨c0, cs, Or.inl heq, h1, h2, h3, h4, h5⟩
      · rintro ⟨c0, cs, h | h, h1, h2, h3, h4, h5⟩
        · exact ⟨c0, cs, h, h1, h2, h3, h4, h5⟩
        · injection h with ha hb
          exact absurd ha hc

/-- Newline-stripping either leaves a list with no trailing newline unchanged,
or removes exactly the final newline. -/
theorem dropTrailingNl_spec (l : List Char) :
    (dropTrailingNl l = l ∧ ∀ t : List Char, l ≠ t ++ ['\n'])
      ∨ l = dropTrailingNl l ++ ['\n'] := by
  cases hr : l.reverse with
  | nil =>
    left
    refine ⟨?_, ?_⟩
    · unfold dropTrailingNl
      rw [hr]
    · intro t ht
      have hrev : l.reverse = '\n' :: t.reverse := by rw [ht]; simp
      rw [hr] at hrev
      cases hrev
  | cons c rest =>
    by_cases hc : c = '\n'
    · right
      have h1 : dropTrailingNl l = rest.reverse := by
        unfold dropTrailingNl
        rw [hr]
        show (if c = '\n' then rest.reverse else l) = rest.reverse
        rw [if_pos hc]
      have h2 := congrArg List.reverse hr
      rw [List.reverse_reverse] at h2
      rw [h1, h2, List.reverse_cons, hc]
    · left
      refine ⟨?_, ?_⟩
      · unfold dropTrailingNl
        rw [hr]
        show (if c = '\n' then rest.reverse else l) = l
        rw [if_neg hc]
      · intro t ht
        have hrev : l.reverse = '\n' :: t.reverse := by rw [ht]; simp
        rw [hr] at hrev
        injection hrev with ha hb
        exact hc ha

/-- A list ending in a newline never has the spec E.164 shape: every
character after the optional plus sign must be a digit. -/
theorem e164SpecData_no_newline (t : List Char) (h : e164SpecData (t ++ ['\n'])) : False := by
  obtain ⟨c0, cs, hcase, hd0, -, hds, -, -⟩ := h
  have hmem : '\n' ∈ t ++ ['\n'] := by simp
  rcases hcase with h1 | h1 <;> rw [h1] at hmem
  · rcases List.mem_cons.mp hmem with he | hin
    · rw [← he] at hd0
      exact absurd hd0 (by decide)
    · exact absurd (hds _ hin) (by decide)
  · rcases List.mem_cons.mp hmem with he | hin
    · exact absurd he (by decide)
    · rcases List.mem_cons.mp hin with he2 | hin2
      · rw [← he2] at hd0
        exact absurd hd0 (by decide)
      · exact absurd (hds _ hin2) (by decide)

/-- The regex model accepts exactly the values of spec E.164 shape, possibly
followed by one trailing newline, which the `$` anchor tolerates. -/
theorem e164Match_iff_spec (v : String) :
    e164Match v = true ↔
      (e164SpecOk v ∨ ∃ w : String, v.data = w.data ++ ['\n'] ∧ e164SpecOk w) := by
  unfold e164Match e164SpecOk
  rcases dropTrailingNl_spec v.data with ⟨heq, hno⟩ | heq
  · rw [heq, e164CoreOpt_iff]
    constructor
    · exact Or.inl
    · rintro (h | ⟨w, hw, -⟩)
      · exact h
      · exact absurd hw (hno w.data)
  · rw [e164CoreOpt_iff]
    constructor
    · intro h
      exact Or.inr ⟨String.mk (dropTrailingNl v.data), heq, h⟩
    · rintro (h | ⟨w, hw, hspec⟩)
      · exact (e164SpecData_no_newline _ (heq ▸ h)).elim
      · have h1 := congrArg List.dropLast hw
        have h2 := congrArg List.dropLast heq
        rw [List.dropLast_concat] at h1 h2
        rw [← h1.symm.trans h2]
        exact hspec

/-- C9: for every value, CEMAC phone validation succeeds exactly when the
value is empty, or it has the E.164 shape of the spec — possibly followed by
one trailing newline, which the `$` anchor of the Python regex also matches
before — and, with a plus sign prefixed when absent, starts with one of the
six fixed regional prefixes. The prefix set is a module constant: the
validator takes no tenant input. -/
theorem central_africa_phone_accept_iff (v : String) :
    validate_central_africa_phone v = Except.ok () ↔
      (v = "" ∨ ((e164SpecOk v ∨ ∃ w : String, v.data = w.data ++ ['\n'] ∧ e164SpecOk w)
        ∧ ∃ pfx, pfx ∈ CENTRAL_AFRICA_E164_PREFIXES
            ∧ strHasPfx (if strHasPfx v ("+") then v else "+" ++ v) pfx = true)) := by
  by_cases hv : v = ""
  · subst hv
    simp [validate_central_africa_phone]
  · cases he : e164Match v with
    | false =>
      have hpe : validate_phone_e164 v
          = Except.error ("Numero invalide (format E.164 requis).") := by
        unfold validate_phone_e164
        rw [if_pos ⟨hv, he⟩]
      have hred : validate_central_africa_phone v
          = Except.error ("Numero invalide (format E.164 requis).") := by
        unfold validate_central_africa_phone
        rw [if_neg hv, hpe]
      rw [hred]
      simp only [reduceCtorEq, false_iff]
      rintro (h | ⟨hspec, -⟩)
      · exact hv h
      · rw [(e164Match_iff_spec v).mpr hspec] at he
        cases he
    | true =>
      have hpe : validate_phone_e164 v = Except.ok () := by
        unfold validate_phone_e164
        rw [if_neg]
        rintro ⟨-, hf⟩
        rw [he] at hf
        cases hf
      have hred : validate_central_africa_phone v
          = (if CENTRAL_AFRICA_E164_PREFIXES.any
                (fun p => strHasPfx (if strHasPfx v ("+") then v else "+" ++ v) p) then
              Except.ok ()
            else Except.error ("Numero hors zone CEMAC.")) := by
        unfold validate_central_africa_phone
        rw [if_neg hv, hpe]
      rw [hred]
      by_cases hany : CENTRAL_AFRICA_E164_PREFIXES.any
          (fun p => strHasPfx (if strHasPfx v ("+") then v else "+" ++ v) p) = true
      · rw [if_pos hany]
        simp only [true_iff]
        refine Or.inr ⟨(e164Match_iff_spec v).mp he, ?_⟩
        obtain ⟨pfx, hmem, hp⟩ := List.any_eq_true.mp hany
        exact ⟨pfx, hmem, hp⟩
      · rw [if_neg hany]
        simp only [reduceCtorEq, false_iff]
        rintro (h | ⟨-, pfx, hmem, hp⟩)
        · exact hv h
        · exact hany (List.any_eq_true.mpr ⟨pfx, hmem, hp⟩)

/-- C9 counterexample: the validator accepts a CEMAC number followed by one
newline — the `$` anchor of `E164_REGEX` matches before a final newline —
although the value itself does not have the claimed E.164 shape. -/
theorem phone_trailing_newline_cex :
    validate_central_africa_phone ("23761234567\n") = Except.ok ()
      ∧ ¬ e164SpecOk ("23761234567\n") := by
  constructor
  · decide
  · intro h
    have hb := (e164CoreOpt_iff (String.data ("23761234567\n"))).mpr h
    exact absurd hb (by decide)

/-! ## C5 — row hashing is deterministic and key-order independent -/

/-- Payload items with pairwise-distinct keys sort identically under any
permutation of the item order (Python dict key sets are duplicate-free). -/
theorem sortItems_perm_eq {p₁ p₂ : List (String × JVal)} (hperm : p₁.Perm p₂)
    (hnd : (p₁.map Prod.fst).Nodup) : sortItems p₁ = sortItems p₂ := by
  have hs1 : List.Sorted keyLe (sortItems p₁) := List.sorted_insertionSort keyLe p₁
  have hs2 : List.Sorted keyLe (sortItems p₂) := List.sorted_insertionSort keyLe p₂
  have hp1 : (sortItems p₁).Perm p₁ := List.perm_insertionSort keyLe p₁
  have hp2 : (sortItems p₂).Perm p₂ := List.perm_insertionSort keyLe p₂
  have hperm12 : (sortItems p₁).Perm (sortItems p₂) := (hp1.trans hperm).trans hp2.symm
  have hnd1 : ((sortItems p₁).map Prod.fst).Nodup := ((hp1.map Prod.fst).nodup_iff).mpr hnd
  have hnd2 : ((sortItems p₂).map Prod.fst).Nodup :=
    ((hperm12.map Prod.fst).nodup_iff).mp hnd1
  have hlt1 : List.Sorted keyLtStrict (sortItems p₁) := by
    have hne : List.Pairwise (fun a b : String × JVal => a.1 ≠ b.1) (sortItems p₁) :=
      List.pairwise_map.mp hnd1
    exact (hs1.and hne).imp (fun h => h)
  have hlt2 : List.Sorted keyLtStrict (sortItems p₂) := by
    have hne : List.Pairwise (fun a b : String × JVal => a.1 ≠ b.1) (sortItems p₂) :=
      List.pairwise_map.mp hnd2
    exact (hs2.and hne).imp (fun h => h)
  exact List.eq_of_perm_of_sorted hperm12 hlt1 hlt2

/-- C5: `set_row_hash` assigns the same 64-character hash to any two rows
whose normalized payloads are equal as key-to-value mappings (permutations
with duplicate-free keys), and hashing the same payload twice yields the
same hash. -/
theorem row_hash_key_order_independent :
    ∀ (r₁ r₂ : StagingStudentRow), r₁.normalized.Perm r₂.normalized →
      (r₁.normalized.map Prod.fst).Nodup →
      ((r₁.set_row_hash).row_hash = (r₂.set_row_hash).row_hash
        ∧ (r₁.set_row_hash).row_hash.data.length = 64
        ∧ ((r₁.set_row_hash).set_row_hash).row_hash = (r₁.set_row_hash).row_hash) := by
  intro r₁ r₂ hperm hnd
  have hd : dumpsSorted r₁.normalized = dumpsSorted r₂.normalized := by
    unfold dumpsSorted
    rw [sortItems_perm_eq hperm hnd]
  refine ⟨?_, ?_, ?_⟩
  · show rowHashOf r₁.normalized = rowHashOf r₂.normalized
    unfold rowHashOf
    rw [hd]
  · exact sha256hex_data_length _
  · rfl

set_option maxRecDepth 8000000 in
/-- Witness for C5 at two concrete rows whose payloads list the same keys in
opposite orders: identical hashes of 64 characters. -/
theorem row_hash_key_order_independent_witness :
    ((StagingStudentRow.set_row_hash
        ⟨1, 1, [], [("b", JVal.jstr "2"), ("a", JVal.jstr "1")],
          RowStatus.pending, [], ""⟩).row_hash
      = (StagingStudentRow.set_row_hash
          ⟨1, 2, [], [("a", JVal.jstr "1"), ("b", JVal.jstr "2")],
            RowStatus.pending, [], ""⟩).row_hash)
    ∧ (StagingStudentRow.set_row_hash
        ⟨1, 1, [], [("b", JVal.jstr "2"), ("a", JVal.jstr "1")],
          RowStatus.pending, [], ""⟩).row_hash.data.length = 64 :=
  ⟨(row_hash_key_order_independent
      ⟨1, 1, [], [("b", JVal.jstr "2"), ("a", JVal.jstr "1")], RowStatus.pending, [], ""⟩
      ⟨1, 2, [], [("a", JVal.jstr "1"), ("b", JVal.jstr "2")], RowStatus.pending, [], ""⟩
      (by decide) (by decide)).1,
   (row_hash_key_order_independent
      ⟨1, 1, [], [("b", JVal.jstr "2"), ("a", JVal.jstr "1")], RowStatus.pending, [], ""⟩
      ⟨1, 2, [], [("a", JVal.jstr "1"), ("b", JVal.jstr "2")], RowStatus.pending, [], ""⟩
      (by decide) (by decide)).2.1⟩

/-! ## C10 — manager-created users have canonical emails -/

/-- `Char.ofNat` round-trips on valid code points below the surrogates. -/
theorem toNat_ofNat_valid {n : Nat} (h : n < 55296) : (Char.ofNat n).toNat = n := by
  have hv : n.isValidChar := Or.inl h
  simp [Char.ofNat, hv, Char.ofNatAux, Char.toNat, UInt32.toNat, BitVec.toNat_ofNatLt]

/-- Lowercasing is idempotent on characters. -/
theorem pyLowerChar_idem (c : Char) : pyLowerChar (pyLowerChar c) = pyLowerChar c := by
  by_cases h : 65 ≤ c.toNat ∧ c.toNat ≤ 90
  · have h1 : pyLowerChar c = Char.ofNat (c.toNat + 32) := by
      unfold pyLowerChar
      rw [if_pos h]
    have ht : (Char.ofNat (c.toNat + 32)).toNat = c.toNat + 32 :=
      toNat_ofNat_valid (by omega)
    rw [h1]
    unfold pyLowerChar
    rw [if_neg (by rw [ht]; omega)]
  · have h1 : pyLowerChar c = c := by
      unfold pyLowerChar
      rw [if_neg h]
    rw [h1, h1]

/-- Characters are equal exactly when their code points are. -/
theorem charEq_iff_toNat {c d : Char} : c = d ↔ c.toNat = d.toNat :=
  ⟨congrArg Char.toNat, charToNat_inj⟩

/-- Membership in the stripped-whitespace set depends only on the code point. -/
theorem isPyWs_iff_toNat {c : Char} :
    isPyWs c = true ↔ (c.toNat = 32 ∨ c.toNat = 9 ∨ c.toNat = 10 ∨ c.toNat = 13
      ∨ c.toNat = 11 ∨ c.toNat = 12) := by
  unfold isPyWs
  simp only [Bool.or_eq_true, beq_iff_eq]
  rw [@charEq_iff_toNat c ' ', @charEq_iff_toNat c '\t', @charEq_iff_toNat c '\n',
    @charEq_iff_toNat c '\r', @charEq_iff_toNat c '\x0b', @charEq_iff_toNat c '\x0c']
  rw [(by decide : (' ' : Char).toNat = 32), (by decide : ('\t' : Char).toNat = 9),
    (by decide : ('\n' : Char).toNat = 10), (by decide : ('\r' : Char).toNat = 13),
    (by decide : ('\x0b' : Char).toNat = 11), (by decide : ('\x0c' : Char).toNat = 12)]
  omega

/-- Lowercasing maps whitespace to whitespace and non-whitespace to
non-whitespace. -/
theorem isPyWs_pyLowerChar (c : Char) : isPyWs (pyLowerChar c) = isPyWs c := by
  unfold pyLowerChar
  by_cases h : 65 ≤ c.toNat ∧ c.toNat ≤ 90
  · rw [if_pos h]
    have ht : (Char.ofNat (c.toNat + 32)).toNat = c.toNat + 32 :=
      toNat_ofNat_valid (by omega)
    have h1 : isPyWs (Char.ofNat (c.toNat + 32)) = false := by
      cases hw : isPyWs (Char.ofNat (c.toNat + 32)) with
      | false => rfl
      | true => have := isPyWs_iff_toNat.mp hw; rw [ht] at this; omega
    have h2 : isPyWs c = false := by
      cases hw : isPyWs c with
      | false => rfl
      | true => have := isPyWs_iff_toNat.mp hw; omega
    rw [h1, h2]
  · rw [if_neg h]

/-- Idempotence of `dropWhile`. -/
theorem dropWhile_idem {α : Type} (p : α → Bool) (l : List α) :
    List.dropWhile p (List.dropWhile p l) = List.dropWhile p l := by
  induction l with
  | nil => rfl
  | cons x xs ih =>
    by_cases h : p x = true
    · simp [List.dropWhile_cons, h, ih]
    · simp [List.dropWhile_cons, h]

/-- `dropWhile` keeps a list headed by a failing element. -/
theorem dropWhile_cons_false {α : Type} {p : α → Bool} {c : α} {t : List α}
    (h : p c = false) : List.dropWhile p (c :: t) = c :: t := by
  simp [List.dropWhile_cons, h]

/-- A list fixed by `dropWhile` has a failing head. -/
theorem dropWhile_head_false {α : Type} {p : α → Bool} {c : α} {t : List α}
    (h : List.dropWhile p (c :: t) = c :: t) : p c = false := by
  cases hp : p c with
  | false => rfl
  | true =>
    rw [List.dropWhile_cons, if_pos hp] at h
    have h1 := (List.dropWhile_sublist (l := t) p).length_le
    have h2 := congrArg List.length h
    simp at h2
    omega

/-- Left strip is idempotent. -/
theorem lstripL_idem (l : List Char) : lstripL (lstripL l) = lstripL l :=
  dropWhile_idem isPyWs l

/-- Right strip is idempotent. -/
theorem rstripL_idem (l : List Char) : rstripL (rstripL l) = rstripL l := by
  unfold rstripL
  rw [List.reverse_reverse, dropWhile_idem]

/-- A stripped list is fixed by a further left strip. -/
theorem lstrip_pyStripL (l : List Char) : lstripL (pyStripL l) = pyStripL l := by
  have hm : lstripL (lstripL l) = lstripL l := lstripL_idem l
  show lstripL (rstripL (lstripL l)) = rstripL (lstripL l)
  cases hr : rstripL (lstripL l) with
  | nil => rfl
  | cons c rest =>
    have hsplit : lstripL l
        = rstripL (lstripL l) ++ (List.takeWhile isPyWs (lstripL l).reverse).reverse := by
      conv_lhs => rw [← List.reverse_reverse (lstripL l),
        ← List.takeWhile_append_dropWhile (p := isPyWs) (l := (lstripL l).reverse)]
      rw [List.reverse_append]
      rfl
    rw [hr] at hsplit
    rw [hsplit] at hm
    have hpc : isPyWs c = false := by
      rw [List.cons_append] at hm
      exact dropWhile_head_false hm
    exact dropWhile_cons_false hpc

/-- A stripped list is fixed by a further right strip. -/
theorem rstrip_pyStripL (l : List Char) : rstripL (pyStripL l) = pyStripL l :=
  rstripL_idem (lstripL l)

/-- Stripping is idempotent. -/
theorem pyStripL_idem (l : List Char) : pyStripL (pyStripL l) = pyStripL l := by
  show rstripL (lstripL (pyStripL l)) = pyStripL l
  rw [lstrip_pyStripL, rstrip_pyStripL]

/-- Lowercasing commutes with left strip. -/
theorem lstrip_lower (l : List Char) : lstripL (pyLowerL l) = pyLowerL (lstripL l) := by
  unfold lstripL pyLowerL
  rw [List.dropWhile_map]
  rw [show (isPyWs ∘ pyLowerChar) = isPyWs from funext isPyWs_pyLowerChar]

/-- Lowercasing commutes with right strip. -/
theorem rstrip_lower (l : List Char) : rstripL (pyLowerL l) = pyLowerL (rstripL l) := by
  unfold rstripL pyLowerL
  rw [← List.map_reverse, List.dropWhile_map,
    show (isPyWs ∘ pyLowerChar) = isPyWs from funext isPyWs_pyLowerChar, List.map_reverse]

/-- Lowercasing commutes with stripping. -/
theorem strip_lower (l : List Char) : pyStripL (pyLowerL l) = pyLowerL (pyStripL l) := by
  show rstripL (lstripL (pyLowerL l)) = pyLowerL (rstripL (lstripL l))
  rw [lstrip_lower, rstrip_lower]

/-- Lowercasing lists is idempotent. -/
theorem pyLowerL_idem (l : List Char) : pyLowerL (pyLowerL l) = pyLowerL l := by
  unfold pyLowerL
  rw [List.map_map]
  exact List.map_congr_left (fun c _ => pyLowerChar_idem c)

/-- String-level commutation of strip and lower. -/
theorem pyStrip_pyLower (s : String) : pyStrip (pyLower s) = pyLower (pyStrip s) :=
  congrArg String.mk (strip_lower s.data)

/-- String-level idempotence of lower. -/
theorem pyLower_idem (s : String) : pyLower (pyLower s) = pyLower s :=
  congrArg String.mk (pyLowerL_idem s.data)

/-- String-level idempotence of strip. -/
theorem pyStrip_idem (s : String) : pyStrip (pyStrip s) = pyStrip s :=
  congrArg String.mk (pyStripL_idem s.data)

/-- The canonical form is a fixed point of strip-then-lower. -/
theorem canonical_fixed (s : String) :
    pyLower (pyStrip (pyLower (pyStrip s))) = pyLower (pyStrip s) := by
  rw [pyStrip_pyLower, pyLower_idem, pyStrip_idem]

/-- `splitLastAmp` reconstructs its input around the split `@`. -/
theorem splitLastAmp_eq : ∀ {l : List Char} {a d : List Char},
    splitLastAmp l = some (a, d) → l = a ++ '@' :: d := by
  intro l
  induction l with
  | nil => intro a d h; cases h
  | cons c cs ih =>
    intro a d h
    unfold splitLastAmp at h
    cases hcs : splitLastAmp cs with
    | some pair =>
      obtain ⟨pa, pd⟩ := pair
      rw [hcs] at h
      simp only [Option.some.injEq, Prod.mk.injEq] at h
      obtain ⟨ha, hd⟩ := h
      rw [← ha, ← hd]
      rw [ih hcs]
      rfl
    | none =>
      rw [hcs] at h
      by_cases hc : c = '@'
      · rw [if_pos hc] at h
        simp only [Option.some.injEq, Prod.mk.injEq] at h
        obtain ⟨ha, hd⟩ := h
        rw [← ha, ← hd, hc]
        rfl
      · rw [if_neg hc] at h
        cases h

/-- The reverse of a list with an `@` in the middle. -/
theorem revAmpShape (l X : List Char) :
    (l ++ '@' :: X).reverse = X.reverse ++ '@' :: l.reverse := by
  simp

/-- `normalize_email` composed with strip-then-lower is plain
strip-then-lower: the domain lowercasing is absorbed by the outer
lowercasing. -/
theorem normalize_email_canonical (e : String) :
    pyLower (pyStrip (normalize_email e)) = pyLower (pyStrip e) := by
  cases hs : splitLastAmp (pyStrip e).data with
  | none =>
    unfold normalize_email
    rw [hs]
  | some pair =>
    obtain ⟨l, d⟩ := pair
    have hne : normalize_email e = String.mk (l ++ '@' :: pyLowerL d) := by
      unfold normalize_email
      rw [hs]
    rw [hne]
    have heq : pyStripL e.data = l ++ '@' :: d := splitLastAmp_eq hs
    show String.mk (pyLowerL (pyStripL (l ++ '@' :: pyLowerL d)))
        = String.mk (pyLowerL (pyStripL e.data))
    rw [heq]
    have hm_l : lstripL (pyStripL e.data) = pyStripL e.data := lstrip_pyStripL e.data
    have hm_r : rstripL (pyStripL e.data) = pyStripL e.data := rstrip_pyStripL e.data
    rw [heq] at hm_l hm_r
    have hL : lstripL (l ++ '@' :: pyLowerL d) = l ++ '@' :: pyLowerL d := by
      cases l with
      | nil => exact dropWhile_cons_false (by decide)
      | cons c l2 =>
        have hc : isPyWs c = false := by
          apply dropWhile_head_false (t := l2 ++ '@' :: d)
          rw [← List.cons_append]
          exact hm_l
        show List.dropWhile isPyWs (c :: (l2 ++ '@' :: pyLowerL d)) = c :: (l2 ++ '@' :: pyLowerL d)
        exact dropWhile_cons_false hc
    have hrev : List.dropWhile isPyWs ((l ++ '@' :: d).reverse) = (l ++ '@' :: d).reverse := by
      have := congrArg List.reverse hm_r
      rw [rstripL, List.reverse_reverse] at this
      rw [this]
    have hR : rstripL (l ++ '@' :: pyLowerL d) = l ++ '@' :: pyLowerL d := by
      unfold rstripL
      suffices h : List.dropWhile isPyWs (l ++ '@' :: pyLowerL d).reverse
          = (l ++ '@' :: pyLowerL d).reverse by
        rw [h, List.reverse_reverse]
      rw [revAmpShape]
      rw [revAmpShape] at hrev
      cases hrd : d.reverse with
      | nil =>
        have hdnil : d = [] := by
          have := congrArg List.reverse hrd
          rwa [List.reverse_reverse] at this
        subst hdnil
        show List.dropWhile isPyWs ((pyLowerL []).reverse ++ '@' :: l.reverse) = _
        exact dropWhile_cons_false (by decide)
      | cons y ys =>
        have hylow : (pyLowerL d).reverse = pyLowerChar y :: pyLowerL ys := by
          show (List.map pyLowerChar d).reverse = _
          rw [← List.map_reverse, hrd]
          rfl
        rw [hylow]
        rw [hrd] at hrev
        have hy : isPyWs y = false := by
          apply dropWhile_head_false (t := ys ++ '@' :: l.reverse)
          simpa using hrev
        have hy2 : isPyWs (pyLowerChar y) = false := by rw [isPyWs_pyLowerChar, hy]
        show List.dropWhile isPyWs (pyLowerChar y :: (pyLowerL ys ++ '@' :: l.reverse)) = _
        rw [dropWhile_cons_false hy2]
        exact (List.cons_append _ _ _).symm
    have hstrip : pyStripL (l ++ '@' :: pyLowerL d) = l ++ '@' :: pyLowerL d := by
      show rstripL (lstripL (l ++ '@' :: pyLowerL d)) = _
      rw [hL, hR]
    rw [hstrip]
    show String.mk (pyLowerL (l ++ '@' :: pyLowerL d)) = String.mk (pyLowerL (l ++ '@' :: d))
    unfold pyLowerL
    rw [List.map_append, List.map_append, List.map_cons, List.map_cons, List.map_map]
    rw [show (pyLowerChar ∘ pyLowerChar) = pyLowerChar from funext pyLowerChar_idem]

/-- A user whose fields are already canonical is a fixed point of
`User.clean`. -/
theorem clean_canonical (em fn ph : String) (est : Option Nat) (role : String)
    (st su : Bool)
    (hem : pyLower (pyStrip em) = em) (hfn : pyStrip fn = fn) (hph : pyStrip ph = ph)
    (hphne : ph ≠ "") (hval : validate_central_africa_phone ph = Except.ok ()) :
    UserM.clean ⟨em, fn, ph, est, role, st, su⟩ = Except.ok ⟨em, fn, ph, est, role, st, su⟩ := by
  have hemail : (if em ≠ "" then pyLower (pyStrip em) else em) = em := by
    by_cases hE : em = ""
    · rw [if_neg (by simp [hE])]
    · rw [if_pos hE, hem]
  have hname : (if fn ≠ "" then pyStrip fn else fn) = fn := by
    by_cases hF : fn = ""
    · rw [if_neg (by simp [hF])]
    · rw [if_pos hF, hfn]
  unfold UserM.clean
  simp only
  rw [if_pos hphne, hph, hval]
  rw [hemail, hname]

/-- C10: `_create_user` (used by `create_user` and `create_superuser`)
always stores the canonical email — the input lowercased with surrounding
whitespace stripped — and `User.clean` re-applies the same normalization:
the created user is a fixed point of `clean`, so later `full_clean` passes
leave its email (and other fields) unchanged. -/
theorem created_user_email_canonical :
    ∀ (email full_name phone : String) (est : Option Nat) (role : String)
      (st su : Bool) (u : UserM),
      UserManager._create_user email full_name phone est role st su = Except.ok u →
      u.email = pyLower (pyStrip email) ∧ u.clean = Except.ok u := by
  intro email full_name phone est role st su u h
  unfold UserManager._create_user at h
  by_cases h0 : email = ""
  · rw [if_pos h0] at h
    cases h
  · rw [if_neg h0] at h
    by_cases h1 : (pyStrip full_name).length < 2
    · rw [if_pos h1] at h
      cases h
    · rw [if_neg h1] at h
      by_cases h2 : pyStrip phone = ""
      · rw [if_pos h2] at h
        cases h
      · rw [if_neg h2] at h
        cases hval : validate_central_africa_phone (pyStrip phone) with
        | error m =>
          rw [hval] at h
          cases h
        | ok v =>
          cases v
          rw [hval] at h
          have hclean := clean_canonical (pyLower (pyStrip (normalize_email email)))
            (pyStrip full_name) (pyStrip phone) est role st su
            (canonical_fixed (normalize_email email)) (pyStrip_idem full_name)
            (pyStrip_idem phone) h2 hval
          rw [hclean] at h
          simp only [Except.ok.injEq] at h
          subst h
          constructor
          · show pyLower (pyStrip (normalize_email email)) = pyLower (pyStrip email)
            exact normalize_email_canonical email
          · exact hclean

/-- Witness for C10: a concrete creation call canonicalizes the email. -/
theorem created_user_email_canonical_witness :
    (UserManager.create_user ("  John.Doe@EXAMPLE.Com  ") ("Jo") ("+237612345678")
        (some 1) ("student")
      = Except.ok ⟨"john.doe@example.com", "Jo", "+237612345678", some 1, "student",
          false, false⟩)
    ∧ (∀ u, UserManager._create_user ("  John.Doe@EXAMPLE.Com  ") ("Jo") ("+237612345678")
        (some 1) ("student") false false = Except.ok u →
        u.email = pyLower (pyStrip ("  John.Doe@EXAMPLE.Com  ")))
    ∧ pyLower (pyStrip ("  John.Doe@EXAMPLE.Com  ")) = "john.doe@example.com" :=
  ⟨by decide,
   fun u h => (created_user_email_canonical ("  John.Doe@EXAMPLE.Com  ") ("Jo")
      ("+237612345678") (some 1) ("student") false false u h).1,
   by decide⟩

/-! ## C1 — commit is idempotent -/

/-- `firstIdx` over a mapped list. -/
theorem firstIdx_map {α β : Type} (q : β → Bool) (f : α → β) (l : List α) :
    firstIdx q (l.map f) = firstIdx (fun a => q (f a)) l := by
  induction l with
  | nil => rfl
  | cons x xs ih =>
    show firstIdx q (f x :: xs.map f) = _
    by_cases h : q (f x) = true
    · simp [firstIdx, h]
    · simp [firstIdx, h, ih]

/-- A first match survives appending elements on the right. -/
theorem firstIdx_append_some {α : Type} {q : α → Bool} :
    ∀ {l : List α} {i : Nat}, firstIdx q l = some i →
      ∀ ext, firstIdx q (l ++ ext) = some i := by
  intro l
  induction l with
  | nil => intro i h; cases h
  | cons x xs ih =>
    intro i h ext
    by_cases hq : q x = true
    · simp [firstIdx, hq] at h ⊢
      exact h
    · have hq2 : q x = false := by revert hq; cases q x <;> simp
      simp only [firstIdx, hq2, Bool.false_eq_true, if_false, List.cons_append] at h ⊢
      obtain ⟨j, hj, hji⟩ := Option.map_eq_some'.mp h
      simp only [List.append_eq]
      rw [ih hj ext]
      simp [hji]

/-- Probing students for a key value only reads the identity-key triples. -/
theorem matchIdx_eq (students : List Student) (k : DedupKey) (v : String) :
    matchIdx students k v
      = firstIdx (fun t => projKey k t == some v) (students.map idKeys3) := by
  rw [firstIdx_map]
  cases k <;> rfl

/-- Reflexivity of the commit-state evolution relation. -/
theorem stMono_refl (st : CommitState) : StMono st st :=
  ⟨⟨[], (List.append_nil _).symm⟩, fun _ hx => hx⟩

/-- Transitivity of the commit-state evolution relation. -/
theorem stMono_trans {a b c : CommitState} (h1 : StMono a b) (h2 : StMono b c) :
    StMono a c := by
  obtain ⟨⟨e1, he1⟩, hm1⟩ := h1
  obtain ⟨⟨e2, he2⟩, hm2⟩ := h2
  exact ⟨⟨e1 ++ e2, by rw [he2, he1, List.append_assoc]⟩, fun x hx => hm2 x (hm1 x hx)⟩

/-- A key match survives any monotone commit-state evolution. -/
theorem matchIdx_mono {st st' : CommitState} (h : StMono st st') {k : DedupKey}
    {v : String} {i : Nat} (hm : matchIdx st.students k v = some i) :
    matchIdx st'.students k v = some i := by
  obtain ⟨⟨ext, hext⟩, -⟩ := h
  rw [matchIdx_eq] at hm ⊢
  rw [hext]
  exact firstIdx_append_some hm ext

/-- Row matches survive any monotone commit-state evolution. -/
theorem rowMatches_mono {st st' : CommitState} (h : StMono st st')
    {keys : List DedupKey} {p : List (String × JVal)} {a : Nat}
    (ha : a ∈ rowMatches st.students keys p) : a ∈ rowMatches st'.students keys p := by
  obtain ⟨k, hk, heq⟩ := List.mem_filterMap.mp ha
  cases hv : rowKeyOf k p with
  | none => rw [hv] at heq; cases heq
  | some v =>
    rw [hv, Option.some_bind] at heq
    refine List.mem_filterMap.mpr ⟨k, hk, ?_⟩
    rw [hv, Option.some_bind]
    exact matchIdx_mono h heq

/-- The Dedup Resolver reports a conflict exactly when two configured keys
match two different students. -/
theorem conflict_iff (students : List Student) (keys : List DedupKey)
    (p : List (String × JVal)) :
    dedupResolve students keys p = DedupResult.conflict ↔
      ∃ a ∈ rowMatches students keys p, ∃ b ∈ rowMatches students keys p, a ≠ b := by
  cases hm : rowMatches students keys p with
  | nil =>
    have hred : dedupResolve students keys p = DedupResult.isNew := by
      unfold dedupResolve
      rw [hm]
    simp [hred]
  | cons i rest =>
    have hred : dedupResolve students keys p
        = (if rest.all (fun j => j == i) then DedupResult.existing i
           else DedupResult.conflict) := by
      unfold dedupResolve
      rw [hm]
    by_cases hall : rest.all (fun j => j == i) = true
    · rw [hred, if_pos hall]
      simp only [reduceCtorEq, false_iff, not_exists, not_and]
      rintro a ha b hb
      have hval : ∀ x, x ∈ i :: rest → x = i := by
        intro x hx
        rcases List.mem_cons.mp hx with rfl | hx2
        · rfl
        · exact beq_iff_eq.mp (List.all_eq_true.mp hall x hx2)
      rw [hval a ha, hval b hb]
      simp
    · rw [hred, if_neg hall]
      simp only [true_iff]
      have hex : ∃ j ∈ rest, j ≠ i := by
        by_contra hcon
        push_neg at hcon
        exact hall (List.all_eq_true.mpr fun x hx => beq_iff_eq.mpr (hcon x hx))
      obtain ⟨j, hj, hne⟩ := hex
      exact ⟨i, List.mem_cons_self i rest, j, List.mem_cons_of_mem i hj,
        fun hij => hne hij.symm⟩

/-- A conflict survives any monotone commit-state evolution: the two
distinct matched students stay matched, since identity keys and positions
are preserved and the table only grows. -/
theorem conflict_mono {st st' : CommitState} (hmono : StMono st st')
    {keys : List DedupKey} {p : List (String × JVal)}
    (hc : dedupResolve st.students keys p = DedupResult.conflict) :
    dedupResolve st'.students keys p = DedupResult.conflict := by
  rw [conflict_iff] at hc ⊢
  obtain ⟨a, ha, b, hb, hne⟩ := hc
  exact ⟨a, rowMatches_mono hmono ha, b, rowMatches_mono hmono hb, hne⟩

/-- Reduction of `commitRow` on an already-registered row hash. -/
theorem commitRow_skip {tenant : Nat} {year : String} {keys : List DedupKey}
    {acc : CommitState × Dispositions} {r : StagingStudentRow}
    (h : (tenant, year, r.row_hash) ∈ acc.1.committedHashes) :
    commitRow tenant year keys acc r
      = (acc.1, { acc.2 with skipped := acc.2.skipped + 1 }) := by
  unfold commitRow
  rw [if_pos h]

/-- Reduction of `commitRow` on a dedup conflict. -/
theorem commitRow_conflict {tenant : Nat} {year : String} {keys : List DedupKey}
    {acc : CommitState × Dispositions} {r : StagingStudentRow}
    (h1 : (tenant, year, r.row_hash) ∉ acc.1.committedHashes)
    (h2 : dedupResolve acc.1.students keys r.normalized = DedupResult.conflict) :
    commitRow tenant year keys acc r
      = (acc.1, { acc.2 with errors := acc.2.errors + 1 }) := by
  unfold commitRow
  rw [if_neg h1, h2]

/-- Reduction of `commitRow` on an existing-student match. -/
theorem commitRow_existing {tenant : Nat} {year : String} {keys : List DedupKey}
    {acc : CommitState × Dispositions} {r : StagingStudentRow} {i : Nat}
    (h1 : (tenant, year, r.row_hash) ∉ acc.1.committedHashes)
    (h2 : dedupResolve acc.1.students keys r.normalized = DedupResult.existing i) :
    commitRow tenant year keys acc r
      = (⟨(match acc.1.students[i]? with
            | some s => acc.1.students.set i { s with fields := r.normalized }
            | none => acc.1.students),
          (tenant, year, r.row_hash) :: acc.1.committedHashes⟩,
         { acc.2 with updated := acc.2.updated + 1 }) := by
  unfold commitRow
  rw [if_neg h1, h2]

/-- Reduction of `commitRow` on a new student. -/
theorem commitRow_isNew {tenant : Nat} {year : String} {keys : List DedupKey}
    {acc : CommitState × Dispositions} {r : StagingStudentRow}
    (h1 : (tenant, year, r.row_hash) ∉ acc.1.committedHashes)
    (h2 : dedupResolve acc.1.students keys r.normalized = DedupResult.isNew) :
    commitRow tenant year keys acc r
      = (⟨acc.1.students ++ [mkStudent r.normalized],
          (tenant, year, r.row_hash) :: acc.1.committedHashes⟩,
         { acc.2 with created := acc.2.created + 1 }) := by
  unfold commitRow
  rw [if_neg h1, h2]

/-- Setting a list entry to the value it already holds changes nothing. -/
theorem list_set_self {α : Type} : ∀ (l : List α) (i : Nat) (a : α),
    l[i]? = some a → l.set i a = l := by
  intro l
  induction l with
  | nil => intro i a h; cases h
  | cons x xs ih =>
    intro i a h
    cases i with
    | zero =>
      simp only [List.getElem?_cons_zero, Option.some.injEq] at h
      rw [← h]
      rfl
    | succ n =>
      simp only [List.getElem?_cons_succ] at h
      show x :: xs.set n a = x :: xs
      rw [ih n a h]

/-- One commit-row step is a monotone commit-state evolution. -/
theorem commitRow_mono (tenant : Nat) (year : String) (keys : List DedupKey)
    (acc : CommitState × Dispositions) (r : StagingStudentRow) :
    StMono acc.1 (commitRow tenant year keys acc r).1 := by
  by_cases h1 : (tenant, year, r.row_hash) ∈ acc.1.committedHashes
  · rw [commitRow_skip h1]
    exact stMono_refl _
  · cases h2 : dedupResolve acc.1.students keys r.normalized with
    | conflict =>
      rw [commitRow_conflict h1 h2]
      exact stMono_refl _
    | existing i =>
      rw [commitRow_existing h1 h2]
      constructor
      · cases hgi : acc.1.students[i]? with
        | none =>
          refine ⟨[], ?_⟩
          simp only [hgi, List.append_nil]
        | some s =>
          refine ⟨[], ?_⟩
          simp only [hgi, List.append_nil]
          rw [List.map_set]
          have hk : idKeys3 { s with fields := r.normalized } = idKeys3 s := rfl
          rw [hk]
          apply list_set_self
          rw [List.getElem?_map, hgi]
          rfl
      · intro x hx
        exact List.mem_cons_of_mem _ hx
    | isNew =>
      rw [commitRow_isNew h1 h2]
      refine ⟨⟨[idKeys3 (mkStudent r.normalized)], ?_⟩, fun x hx => List.mem_cons_of_mem _ hx⟩
      simp

/-- Folding commit-row steps is a monotone commit-state evolution. -/
theorem foldl_commitRow_mono (tenant : Nat) (year : String) (keys : List DedupKey) :
    ∀ (rows : List StagingStudentRow) (acc : CommitState × Dispositions),
      StMono acc.1 (rows.foldl (commitRow tenant year keys) acc).1 := by
  intro rows
  induction rows with
  | nil => intro acc; exact stMono_refl _
  | cons r rs ih =>
    intro acc
    rw [List.foldl_cons]
    exact stMono_trans (commitRow_mono tenant year keys acc r) (ih _)

/-- After one commit-row step, the row hash is registered or the row is a
dedup conflict. -/
theorem commitRow_prop (tenant : Nat) (year : String) (keys : List DedupKey)
    (acc : CommitState × Dispositions) (r : StagingStudentRow) :
    (tenant, year, r.row_hash) ∈ (commitRow tenant year keys acc r).1.committedHashes
      ∨ dedupResolve (commitRow tenant year keys acc r).1.students keys r.normalized
          = DedupResult.conflict := by
  by_cases h1 : (tenant, year, r.row_hash) ∈ acc.1.committedHashes
  · rw [commitRow_skip h1]
    exact Or.inl h1
  · cases h2 : dedupResolve acc.1.students keys r.normalized with
    | conflict =>
      rw [commitRow_conflict h1 h2]
      exact Or.inr h2
    | existing i =>
      rw [commitRow_existing h1 h2]
      exact Or.inl (List.mem_cons_self _ _)
    | isNew =>
      rw [commitRow_isNew h1 h2]
      exact Or.inl (List.mem_cons_self _ _)

/-- After a commit run, every processed row has its hash registered or is a
dedup conflict against the final state. -/
theorem foldl_commitRow_inv (tenant : Nat) (year : String) (keys : List DedupKey) :
    ∀ (rows : List StagingStudentRow) (acc : CommitState × Dispositions)
      (r : StagingStudentRow), r ∈ rows →
      ((tenant, year, r.row_hash)
          ∈ (rows.foldl (commitRow tenant year keys) acc).1.committedHashes
        ∨ dedupResolve (rows.foldl (commitRow tenant year keys) acc).1.students keys
            r.normalized = DedupResult.conflict) := by
  intro rows
  induction rows with
  | nil => intro acc r hr; cases hr
  | cons x xs ih =>
    intro acc r hr
    rw [List.foldl_cons]
    rcases List.mem_cons.mp hr with rfl | hmem
    · have hmono := foldl_commitRow_mono tenant year keys xs (commitRow tenant year keys acc r)
      rcases commitRow_prop tenant year keys acc r with h | h
      · exact Or.inl (hmono.2 _ h)
      · exact Or.inr (conflict_mono hmono h)
    · exact ih _ r hmem

/-- A commit run over rows that are all registered or conflicting leaves the
commit state untouched. -/
theorem foldl_commitRow_noop (tenant : Nat) (year : String) (keys : List DedupKey) :
    ∀ (rows : List StagingStudentRow) (st1 : CommitState) (d : Dispositions),
      (∀ r ∈ rows, (tenant, year, r.row_hash) ∈ st1.committedHashes
        ∨ dedupResolve st1.students keys r.normalized = DedupResult.conflict) →
      (rows.foldl (commitRow tenant year keys) (st1, d)).1 = st1 := by
  intro rows
  induction rows with
  | nil => intro st1 d _; rfl
  | cons x xs ih =>
    intro st1 d hinv
    rw [List.foldl_cons]
    by_cases h1 : (tenant, year, x.row_hash) ∈ st1.committedHashes
    · rw [@commitRow_skip tenant year keys (st1, d) x h1]
      exact ih st1 _ (fun r hr => hinv r (List.mem_cons_of_mem x hr))
    · have h2 : dedupResolve st1.students keys x.normalized = DedupResult.conflict := by
        rcases hinv x (List.mem_cons_self x xs) with h | h
        · exact absurd h h1
        · exact h
      rw [@commitRow_conflict tenant year keys (st1, d) x h1 h2]
      exact ih st1 _ (fun r hr => hinv r (List.mem_cons_of_mem x hr))

/-- Re-running the commit fold from the state the first run produced changes
nothing: every valid row is now registered or still conflicting. -/
theorem commit_fold_idem (tenant : Nat) (year : String) (keys : List DedupKey)
    (rows : List StagingStudentRow) (st : CommitState) :
    (rows.foldl (commitRow tenant year keys)
        ((rows.foldl (commitRow tenant year keys) (st, ⟨0, 0, 0, 0⟩)).1, ⟨0, 0, 0, 0⟩)).1
      = (rows.foldl (commitRow tenant year keys) (st, ⟨0, 0, 0, 0⟩)).1 := by
  apply foldl_commitRow_noop
  intro r hr
  exact foldl_commitRow_inv tenant year keys rows (st, ⟨0, 0, 0, 0⟩) r hr

/-- C1: the commit transaction is idempotent. Committing an
already-committed batch is a no-op: the row-hash guard skips every row
already committed for this tenant and school year (conflicting rows still
conflict), so no student record is created or modified, the recomputed
counters (`total_rows`, `valid_rows`, `error_rows`) are identical, and the
1:1 commit log, written only on the first terminal commit, keeps its
counts. -/
theorem commit_idempotent (st : CommitState) (b : ImportBatch) :
    ImportBatch.commit (ImportBatch.commit st b).1 (ImportBatch.commit st b).2
      = ImportBatch.commit st b := by
  obtain ⟨est, year, stype, status, mapping, strat, tr, vr, er, rows, clog⟩ := b
  have hst := commit_fold_idem est year (strategyKeys strat)
    ((sortRows rows).filter (fun r => r.status == RowStatus.valid)) st
  cases clog with
  | some log => exact congrArg₂ Prod.mk hst rfl
  | none => exact congrArg₂ Prod.mk hst rfl

end Compose
